import Mathlib

/-!
Verification development for the equipment-checkout repository.

The data model follows the SQL schema in `DATABASE_SETUP.md` (tables
`eq_equipment`, `eq_checkouts`, `eq_deficiencies`) and the client logic in
`src/App.jsx`.  UUID keys are modelled as `Nat`; SQL `TIMESTAMP` values as
`Int`; SQL `DATE` values as `Int` day numbers.  The `created_at` /
`updated_at` bookkeeping columns are not modelled (no logic reads them).
Status mutation happens only in the database trigger functions, which are
translated one-to-one below.
-/

namespace EquipCheckout

/-- Category enum from the `eq_equipment.category` CHECK constraint. -/
inductive Category where
  | grounds | tools | cleaning | electrical | events | shop | range | other
deriving DecidableEq, Repr

/-- Status enum from the `eq_equipment.status` CHECK constraint. -/
inductive Status where
  | available | checkedOut | needsRepair | outOfService
deriving DecidableEq, Repr

/-- Use-type enum from the `eq_checkouts.use_type` CHECK constraint. -/
inductive UseType where
  | club | personal
deriving DecidableEq, Repr

/-- Return-condition enum from the `eq_checkouts.return_condition` CHECK constraint. -/
inductive RetCondition where
  | good | deficiency
deriving DecidableEq, Repr

/-- Severity enum from the `eq_deficiencies.severity` CHECK constraint. -/
inductive Severity where
  | minor | major
deriving DecidableEq, Repr

/-- Deficiency status enum from the `eq_deficiencies.status` CHECK constraint. -/
inductive DefStatus where
  | pending | resolved
deriving DecidableEq, Repr

/-- User role, from the shared `users` table (`admin`, `chair`, `volunteer`). -/
inductive Role where
  | volunteer | chair | admin
deriving DecidableEq, Repr

/-- Row of the shared `users` table (fields the equipment app reads). -/
structure User where
  id : Nat
  role : Role
deriving DecidableEq, Repr

/-- Row of `eq_equipment`. -/
structure Equipment where
  id : Nat
  equipment_code : String
  name : String
  category : Category
  location : Option String
  status : Status
  last_maintenance : Option Int
  notes : Option String
deriving DecidableEq, Repr

/-- Row of `eq_checkouts`. -/
structure Checkout where
  id : Nat
  equipment_id : Nat
  user_id : Nat
  checkout_date : Int
  expected_return : Option Int
  return_date : Option Int
  use_type : UseType
  purpose : Option String
  return_condition : Option RetCondition
deriving DecidableEq, Repr

/-- Row of `eq_deficiencies`. -/
structure Deficiency where
  id : Nat
  equipment_id : Nat
  checkout_id : Option Nat
  reported_by : Nat
  reported_date : Int
  description : String
  severity : Severity
  status : DefStatus
  resolved_by : Option Nat
  resolved_date : Option Int
  resolution_notes : Option String
deriving DecidableEq, Repr

/-- Contents of the three `eq_` tables, as fetched into App.jsx state. -/
structure AppState where
  equipment : List Equipment
  checkouts : List Checkout
  deficiencies : List Deficiency
deriving DecidableEq, Repr

/-- Error kinds for rejected operations (spec section 7 taxonomy; in App.jsx a
rejection is an early `return` before any write). -/
inductive EqError where
  | notFound | invalidState | alreadyReturned | authorization | constraintViolation
deriving DecidableEq, Repr

/-- Open checkout for a given equipment id: `return_date IS NULL` (glossary:
a Checkout record with no return timestamp). -/
def isOpenFor (eid : Nat) (c : Checkout) : Bool :=
  decide (c.equipment_id = eid ∧ c.return_date = none)

/-- Pending major deficiency for a given equipment id. -/
def isPendingMajorFor (eid : Nat) (d : Deficiency) : Bool :=
  decide (d.equipment_id = eid ∧ d.severity = Severity.major ∧ d.status = DefStatus.pending)

/-- SQL `UPDATE public.eq_equipment SET status = st WHERE id = eid`. -/
def setStatus (eid : Nat) (st : Status) (eqs : List Equipment) : List Equipment :=
  eqs.map fun e => if e.id = eid then { e with status := st } else e

/-- Trigger function `update_equipment_status_on_checkout` (DATABASE_SETUP.md):
AFTER INSERT on `eq_checkouts`, set the equipment's status to `checked-out`. -/
def update_equipment_status_on_checkout (row : Checkout) (eqs : List Equipment) :
    List Equipment :=
  setStatus row.equipment_id Status.checkedOut eqs

/-- Trigger function `update_equipment_status_on_return` (DATABASE_SETUP.md):
AFTER UPDATE on `eq_checkouts`; if `NEW.return_date IS NOT NULL AND
OLD.return_date IS NULL`, set the equipment's status to `available`
(unconditionally: the trigger does not consult `eq_deficiencies`). -/
def update_equipment_status_on_return (oldRow newRow : Checkout)
    (eqs : List Equipment) : List Equipment :=
  if newRow.return_date.isSome ∧ oldRow.return_date = none then
    setStatus newRow.equipment_id Status.available eqs
  else eqs

/-- Trigger function `update_equipment_on_deficiency`, INSERT branch
(DATABASE_SETUP.md): a newly inserted `major` deficiency sets the equipment's
status to `needs-repair`. -/
def update_equipment_on_deficiency_insert (row : Deficiency)
    (eqs : List Equipment) : List Equipment :=
  if row.severity = Severity.major then
    setStatus row.equipment_id Status.needsRepair eqs
  else eqs

/-- Trigger function `update_equipment_on_deficiency`, UPDATE branch
(DATABASE_SETUP.md): when a deficiency transitions `pending` to `resolved`,
and no other pending major deficiency remains for the equipment, set the
status to `checked-out` if an open checkout exists, else `available`.
`defs` is the post-update contents of `eq_deficiencies` (AFTER trigger). -/
def update_equipment_on_deficiency_update (oldRow newRow : Deficiency)
    (defs : List Deficiency) (cks : List Checkout) (eqs : List Equipment) :
    List Equipment :=
  if newRow.status = DefStatus.resolved ∧ oldRow.status = DefStatus.pending then
    if defs.any (fun d => decide (d.id ≠ newRow.id) && isPendingMajorFor newRow.equipment_id d) then
      eqs
    else if cks.any (isOpenFor newRow.equipment_id) then
      setStatus newRow.equipment_id Status.checkedOut eqs
    else
      setStatus newRow.equipment_id Status.available eqs
  else eqs

/-- Checkout form state in App.jsx (`checkoutForm`). -/
structure CheckoutForm where
  useType : UseType
  purpose : Option String
  expectedReturn : Option Int
deriving DecidableEq, Repr

/-- Return form state in App.jsx (`returnForm`). -/
structure ReturnForm where
  condition : RetCondition
  deficiencyDesc : String
  severity : Severity
deriving DecidableEq, Repr

/-- App.jsx `handleCheckout`: rejected unless the selected equipment exists
(`!selectedEquipment`) and its status is `available`; otherwise inserts an
`eq_checkouts` row with null `return_date`, after which the
`on_equipment_checkout` trigger sets the status to `checked-out`.
`newId` models the store-generated row id, `now` the `checkout_date`. -/
def handleCheckout (s : AppState) (u : User) (eid : Nat) (form : CheckoutForm)
    (newId : Nat) (now : Int) : Except EqError AppState :=
  match s.equipment.find? (fun e => decide (e.id = eid)) with
  | none => Except.error EqError.notFound
  | some e =>
    if e.status = Status.available then
      let row : Checkout :=
        { id := newId, equipment_id := e.id, user_id := u.id,
          checkout_date := now, expected_return := form.expectedReturn,
          return_date := none, use_type := form.useType,
          purpose := form.purpose, return_condition := none }
      Except.ok
        { s with checkouts := s.checkouts ++ [row],
                 equipment := update_equipment_status_on_checkout row s.equipment }
    else Except.error EqError.invalidState

/-- App.jsx `handleReturn`: finds the active checkout for the selected
equipment (`equipment_id` matches and `return_date` null); rejected if none;
otherwise updates that row's `return_date` and `return_condition` (firing the
`on_equipment_return` trigger), then — when the return condition is
`deficiency` and the description is non-empty — inserts an `eq_deficiencies`
row (firing the `on_deficiency_change` INSERT trigger).  The update targets
the row by its primary key (`.eq('id', activeCheckout.id)`), so exactly the
found row changes. -/
def handleReturn (s : AppState) (u : User) (eid : Nat) (form : ReturnForm)
    (now : Int) (newDefId : Nat) (defDate : Int) : Except EqError AppState :=
  match s.checkouts.find? (isOpenFor eid) with
  | none => Except.error EqError.alreadyReturned
  | some active =>
    let newRow : Checkout :=
      { active with
          return_date := some now,
          return_condition := some (if form.condition = RetCondition.good
            then RetCondition.good else RetCondition.deficiency) }
    let s1 : AppState :=
      { s with
          checkouts := s.checkouts.map (fun c => if c.id = active.id then newRow else c),
          equipment := update_equipment_status_on_return active newRow s.equipment }
    if form.condition = RetCondition.deficiency ∧ form.deficiencyDesc ≠ "" then
      let defRow : Deficiency :=
        { id := newDefId, equipment_id := eid, checkout_id := some active.id,
          reported_by := u.id, reported_date := defDate,
          description := form.deficiencyDesc, severity := form.severity,
          status := DefStatus.pending, resolved_by := none,
          resolved_date := none, resolution_notes := none }
      Except.ok
        { s1 with
            deficiencies := s1.deficiencies ++ [defRow],
            equipment := update_equipment_on_deficiency_insert defRow s1.equipment }
    else Except.ok s1

/-- Standalone deficiency report: a direct INSERT into `eq_deficiencies`
(the row shape used by App.jsx's deficiency insert; permitted to any
authenticated user by the "Users can report deficiencies" policy), followed
by the `on_deficiency_change` INSERT trigger.  The `equipment_id` foreign key
makes the store reject a report against unknown equipment. -/
def reportDeficiency (s : AppState) (u : User) (eid : Nat) (desc : String)
    (sev : Severity) (newId : Nat) (date : Int) : Except EqError AppState :=
  if s.equipment.any (fun e => decide (e.id = eid)) then
    let row : Deficiency :=
      { id := newId, equipment_id := eid, checkout_id := none,
        reported_by := u.id, reported_date := date, description := desc,
        severity := sev, status := DefStatus.pending, resolved_by := none,
        resolved_date := none, resolution_notes := none }
    Except.ok
      { s with deficiencies := s.deficiencies ++ [row],
               equipment := update_equipment_on_deficiency_insert row s.equipment }
  else Except.error EqError.constraintViolation

/-- Capability check: App.jsx line 408 (`isAdmin = user.role === 'admin' ||
user.role === 'chair'`) and the "updatable by admin/chair" row-security
policies. -/
def canManageInventory (u : User) : Bool :=
  decide (u.role = Role.admin ∨ u.role = Role.chair)

/-- Capability check, modelled from the spec: `canCheckOut(user) -> bool`,
true for all authenticated roles.  App.jsx has no role guard on
`handleCheckout` or on the deficiency insert, matching this. -/
def canCheckOut (_u : User) : Bool := true

/-- App.jsx `resolveDeficiency`: unconditionally updates the deficiency row
(status `resolved`, resolver, date, notes `'Resolved'`) with no precondition
on its current status.  The "Deficiencies updatable by admin/chair" row
security policy silently filters the update to zero rows for other roles
(no error is raised).  The `on_deficiency_change` UPDATE trigger fires for
the updated row. -/
def resolveDeficiency (s : AppState) (u : User) (defId : Nat) (date : Int) :
    Except EqError AppState :=
  if canManageInventory u then
    let upd : Deficiency → Deficiency := fun d =>
      if d.id = defId then
        { d with status := DefStatus.resolved, resolved_by := some u.id,
                 resolved_date := some date, resolution_notes := some "Resolved" }
      else d
    let newDefs := s.deficiencies.map upd
    match s.deficiencies.find? (fun d => decide (d.id = defId)) with
    | none => Except.ok { s with deficiencies := newDefs }
    | some d =>
      Except.ok
        { s with
            deficiencies := newDefs,
            equipment := update_equipment_on_deficiency_update d (upd d) newDefs
              s.checkouts s.equipment }
  else Except.ok s

/-- Status recompute function, written from the spec's words (section 4.1):
pending major deficiency forces `needs-repair`; else an open checkout gives
`checked-out`; else `available`.  This is the claim-side definition that the
stored `status` column is compared against. -/
def recomputeStatus (s : AppState) (eid : Nat) : Status :=
  if s.deficiencies.any (isPendingMajorFor eid) then Status.needsRepair
  else if s.checkouts.any (isOpenFor eid) then Status.checkedOut
  else Status.available

/-- Claim-side invariant: every equipment row's stored status equals the
recompute function on the current checkouts and deficiencies. -/
def statusInv (s : AppState) : Prop :=
  ∀ e ∈ s.equipment, e.status = recomputeStatus s e.id

/-- Number of open checkout rows for an equipment id. -/
def countOpen (eid : Nat) (s : AppState) : Nat :=
  (s.checkouts.filter (isOpenFor eid)).length

/-- Claim-side invariant: at most one open checkout per equipment. -/
def openInv (s : AppState) : Prop :=
  ∀ e ∈ s.equipment, countOpen e.id s ≤ 1

/-- Auxiliary invariant: equipment marked `available` has no open checkout. -/
def availNoOpen (s : AppState) : Prop :=
  ∀ e ∈ s.equipment, e.status = Status.available → countOpen e.id s = 0

instance (s : AppState) : Decidable (statusInv s) := by
  unfold statusInv; infer_instance

instance (s : AppState) : Decidable (openInv s) := by
  unfold openInv; infer_instance

instance (s : AppState) : Decidable (availNoOpen s) := by
  unfold availNoOpen; infer_instance

/-- Metadata of a CREATE INDEX statement in the schema. -/
structure IndexDef where
  name : String
  table : String
  columns : List String
  unique : Bool
  whereReturnDateIsNull : Bool
deriving DecidableEq, Repr

/-- DATABASE_SETUP.md line 89: `CREATE INDEX idx_eq_checkouts_active ON
public.eq_checkouts(equipment_id) WHERE return_date IS NULL` — an ordinary
(non-UNIQUE) index restricted to open rows. -/
def idx_eq_checkouts_active : IndexDef :=
  { name := "idx_eq_checkouts_active", table := "eq_checkouts",
    columns := ["equipment_id"], unique := false,
    whereReturnDateIsNull := true }

/-- Store-level INSERT into `eq_checkouts`, as issued by a client whose state
was read earlier (the path a concurrent checkout takes).  The store checks
the `equipment_id` foreign key and primary-key freshness, fires the
`on_equipment_checkout` trigger, and — because `idx_eq_checkouts_active` is
not declared UNIQUE — applies no uniqueness check on open rows. -/
def dbInsertCheckout (s : AppState) (row : Checkout) : Except EqError AppState :=
  if s.equipment.any (fun e => decide (e.id = row.equipment_id))
      ∧ s.checkouts.all (fun c => decide (c.id ≠ row.id)) then
    Except.ok
      { s with checkouts := s.checkouts ++ [row],
               equipment := update_equipment_status_on_checkout row s.equipment }
  else Except.error EqError.constraintViolation

/-! Concrete sample data used by witnesses and counterexamples. -/

/-- Sample equipment row (available). -/
def eqMower : Equipment :=
  { id := 0, equipment_code := "EQ001", name := "Riding Mower",
    category := Category.grounds, location := none,
    status := Status.available, last_maintenance := none, notes := none }

/-- Sample admin user. -/
def uAdmin : User := { id := 1, role := Role.admin }

/-- Sample volunteer user. -/
def uVol : User := { id := 2, role := Role.volunteer }

/-- Sample checkout form. -/
def cform : CheckoutForm :=
  { useType := UseType.club, purpose := none, expectedReturn := none }

/-- Sample return form, condition good. -/
def rformGood : ReturnForm :=
  { condition := RetCondition.good, deficiencyDesc := "", severity := Severity.minor }

/-- Initial sample state: one available equipment, no history. -/
def sInit : AppState := { equipment := [eqMower], checkouts := [], deficiencies := [] }

/-- Lifecycle run exercising the return trigger with a pending major
deficiency: check out the mower, report a standalone major deficiency while
it is out, then return it in good condition. -/
def c1Chain : Except EqError AppState :=
  handleCheckout sInit uVol 0 cform 10 0 >>= fun s1 =>
  reportDeficiency s1 uVol 0 "bent blade" Severity.major 20 1 >>= fun s2 =>
  handleReturn s2 uVol 0 rformGood 2 30 2

/-! Generic list helpers shared by the invariant proofs. -/

/-- Two members of a list of length at most one are equal. -/
theorem mem_len_le_one_eq {α : Type} {l : List α} {a b : α}
    (h : l.length ≤ 1) (ha : a ∈ l) (hb : b ∈ l) : a = b := by
  match l with
  | [] => cases ha
  | [x] =>
    rcases List.mem_singleton.mp ha with rfl
    exact (List.mem_singleton.mp hb).symm
  | x :: y :: rest => simp at h

/-- A list of length at most one with a member is that singleton. -/
theorem eq_singleton_of_len_le_one {α : Type} {l : List α} {a : α}
    (h : l.length ≤ 1) (ha : a ∈ l) : l = [a] := by
  match l with
  | [] => cases ha
  | [x] => rcases List.mem_singleton.mp ha with rfl; rfl
  | x :: y :: rest => simp at h

/-- Pointwise-equal predicates give equal `List.any`. -/
theorem any_ext {α : Type} {l : List α} {p q : α → Bool}
    (h : ∀ x ∈ l, p x = q x) : l.any p = l.any q := by
  induction l with
  | nil => rfl
  | cons x xs ih =>
    simp only [List.any_cons]
    rw [h x (List.mem_cons_self x xs), ih (fun y hy => h y (List.mem_cons_of_mem x hy))]

/-- In a list with duplicate-free keys, members with the same key coincide. -/
theorem nodup_key_eq {α : Type} {key : α → Nat} {l : List α}
    (h : (l.map key).Nodup) {a b : α}
    (ha : a ∈ l) (hb : b ∈ l) (hk : key a = key b) : a = b := by
  induction l with
  | nil => cases ha
  | cons x xs ih =>
    simp only [List.map_cons, List.nodup_cons] at h
    rcases List.mem_cons.mp ha with rfl | ha' <;>
      rcases List.mem_cons.mp hb with rfl | hb'
    · rfl
    · exact absurd (hk ▸ List.mem_map_of_mem key hb') h.1
    · exact absurd (hk ▸ List.mem_map_of_mem key ha') h.1
    · exact ih h.2 ha' hb'

/-! Claim C1: status equals the recompute function after every lifecycle
operation. -/

/-- C1 counterexample: check out available equipment, report a standalone
major deficiency while it is out, then return it in good condition.  The
`update_equipment_status_on_return` trigger sets the status to `available`
unconditionally, although the pending major deficiency makes the recompute
function say `needs-repair`, so the claimed invariant fails after this
return. -/
theorem C1_counterexample :
    (c1Chain.toOption.map fun s =>
      ((s.equipment.find? (fun e => decide (e.id = 0))).map Equipment.status,
       recomputeStatus s 0, decide (statusInv s)))
    = some (some Status.available, Status.needsRepair, false) := by decide

/-! Claim C3: checkout of non-available equipment is rejected and mutates
nothing. -/

/-- C3: when the selected equipment's status is not `available` (checked-out,
needs-repair or out-of-service), `handleCheckout` is rejected with
InvalidStateError; no state is produced, so the equipment record, the
checkouts and the deficiencies are all unchanged. -/
theorem C3_checkout_rejected (s : AppState) (u : User) (eid : Nat)
    (form : CheckoutForm) (newId : Nat) (now : Int) (e : Equipment)
    (hfind : s.equipment.find? (fun x => decide (x.id = eid)) = some e)
    (hst : e.status ≠ Status.available) :
    handleCheckout s u eid form newId now = Except.error EqError.invalidState := by
  unfold handleCheckout
  rw [hfind]
  simp [hst]

/-- Sample needs-repair equipment row for the C3 witness. -/
def eqGenerator : Equipment :=
  { id := 7, equipment_code := "EQ007", name := "Generator",
    category := Category.electrical, location := none,
    status := Status.needsRepair, last_maintenance := none, notes := none }

/-- Sample state holding the needs-repair generator. -/
def sC3 : AppState := { equipment := [eqGenerator], checkouts := [], deficiencies := [] }

/-- C3 witness: concrete rejection of a checkout of needs-repair equipment. -/
theorem C3_checkout_rejected_witness :
    sC3.equipment.find? (fun x => decide (x.id = 7)) = some eqGenerator
    ∧ eqGenerator.status ≠ Status.available
    ∧ handleCheckout sC3 uVol 7 cform 1 0 = Except.error EqError.invalidState :=
  ⟨by decide, by decide,
    C3_checkout_rejected sC3 uVol 7 cform 1 0 eqGenerator (by decide) (by decide)⟩

/-- Decidable equality for results of the lifecycle operations. -/
instance exceptDecEq {ε α : Type} [DecidableEq ε] [DecidableEq α] :
    DecidableEq (Except ε α)
  | Except.ok x, Except.ok y =>
    if h : x = y then isTrue (congrArg Except.ok h)
    else isFalse (fun hc => h (Except.ok.inj hc))
  | Except.error x, Except.error y =>
    if h : x = y then isTrue (congrArg Except.error h)
    else isFalse (fun hc => h (Except.error.inj hc))
  | Except.ok _, Except.error _ => isFalse (fun hc => Except.noConfusion hc)
  | Except.error _, Except.ok _ => isFalse (fun hc => Except.noConfusion hc)

/-- Updating rows matched by key and leaving others alone commutes with
keyed lookup. -/
theorem find?_id_map {α : Type} (key : α → Nat) (i : Nat) (g : α → α)
    (hg : ∀ a, key a = i → key (g a) = i) (l : List α) :
    ((l.map fun a => if key a = i then g a else a).find?
        fun a => decide (key a = i))
      = (l.find? fun a => decide (key a = i)).map g := by
  induction l with
  | nil => rfl
  | cons a l ih =>
    by_cases h : key a = i
    · have h1 : (decide (key (g a) = i)) = true := decide_eq_true (hg a h)
      have h2 : (decide (key a = i)) = true := decide_eq_true h
      rw [List.map_cons, if_pos h]
      simp [List.find?_cons, h1, h2]
    · have h1 : (decide (key a = i)) = false := decide_eq_false h
      rw [List.map_cons, if_neg h]
      simp [List.find?_cons, h1, ih]

/-- Constant-replacement by key commutes with keyed lookup. -/
theorem find?_id_map_const {α : Type} (key : α → Nat) (i : Nat) (r : α)
    (hr : key r = i) (l : List α) :
    ((l.map fun a => if key a = i then r else a).find?
        fun a => decide (key a = i))
      = (l.find? fun a => decide (key a = i)).map (fun _ => r) := by
  induction l with
  | nil => rfl
  | cons a l ih =>
    by_cases h : key a = i
    · have h1 : (decide (key r = i)) = true := decide_eq_true hr
      have h2 : (decide (key a = i)) = true := decide_eq_true h
      rw [List.map_cons, if_pos h]
      simp [List.find?_cons, h1, h2]
    · have h1 : (decide (key a = i)) = false := decide_eq_false h
      rw [List.map_cons, if_neg h]
      simp [List.find?_cons, h1, ih]

/-- Checkout row inserted by `handleCheckout` (App.jsx line 233). -/
def newCheckoutRow (u : User) (e : Equipment) (form : CheckoutForm)
    (newId : Nat) (now : Int) : Checkout :=
  { id := newId, equipment_id := e.id, user_id := u.id, checkout_date := now,
    expected_return := form.expectedReturn, return_date := none,
    use_type := form.useType, purpose := form.purpose, return_condition := none }

/-- Closed version of the active checkout written by `handleReturn`
(App.jsx line 250). -/
def closedRow (active : Checkout) (form : ReturnForm) (now : Int) : Checkout :=
  { active with
      return_date := some now,
      return_condition := some (if form.condition = RetCondition.good
        then RetCondition.good else RetCondition.deficiency) }

/-- Deficiency row inserted by `handleReturn`'s deficiency branch
(App.jsx line 252). -/
def returnDefRow (u : User) (eid : Nat) (active : Checkout)
    (form : ReturnForm) (newDefId : Nat) (defDate : Int) : Deficiency :=
  { id := newDefId, equipment_id := eid, checkout_id := some active.id,
    reported_by := u.id, reported_date := defDate,
    description := form.deficiencyDesc, severity := form.severity,
    status := DefStatus.pending, resolved_by := none, resolved_date := none,
    resolution_notes := none }

/-- Characterization of a successful `handleCheckout`. -/
theorem handleCheckout_ok {s : AppState} {u : User} {eid : Nat}
    {form : CheckoutForm} {ni : Nat} {now : Int} {s' : AppState}
    (h : handleCheckout s u eid form ni now = Except.ok s') :
    ∃ e, s.equipment.find? (fun x => decide (x.id = eid)) = some e
      ∧ e.id = eid ∧ e.status = Status.available
      ∧ s'.checkouts = s.checkouts ++ [newCheckoutRow u e form ni now]
      ∧ s'.deficiencies = s.deficiencies
      ∧ s'.equipment = setStatus e.id Status.checkedOut s.equipment := by
  unfold handleCheckout at h
  split at h
  · exact absurd h (by simp)
  next e hfind =>
    have hid : e.id = eid := by simpa using List.find?_some hfind
    split at h
    next hst =>
      obtain rfl := Except.ok.inj h
      exact ⟨e, hfind, hid, hst, rfl, rfl, rfl⟩
    next hst => exact absurd h (by simp)

/-- Result of `handleReturn` once the active checkout is found. -/
theorem handleReturn_eq (s : AppState) (u : User) (eid : Nat)
    (form : ReturnForm) (now : Int) (ndi : Nat) (dd : Int) (active : Checkout)
    (hfind : s.checkouts.find? (isOpenFor eid) = some active) :
    handleReturn s u eid form now ndi dd = Except.ok
      (if form.condition = RetCondition.deficiency ∧ form.deficiencyDesc ≠ "" then
        { equipment := update_equipment_on_deficiency_insert
            (returnDefRow u eid active form ndi dd)
            (update_equipment_status_on_return active (closedRow active form now)
              s.equipment),
          checkouts := s.checkouts.map fun c =>
            if c.id = active.id then closedRow active form now else c,
          deficiencies := s.deficiencies ++ [returnDefRow u eid active form ndi dd] }
      else
        { equipment := update_equipment_status_on_return active
            (closedRow active form now) s.equipment,
          checkouts := s.checkouts.map fun c =>
            if c.id = active.id then closedRow active form now else c,
          deficiencies := s.deficiencies }) := by
  unfold handleReturn closedRow returnDefRow
  rw [hfind]
  split
  next heq2 => exact absurd heq2 (by simp)
  next a heq2 =>
    obtain rfl := Option.some.inj heq2
    split <;> split <;> rfl

/-- Failure of `handleReturn` when no open checkout exists. -/
theorem handleReturn_err (s : AppState) (u : User) (eid : Nat)
    (form : ReturnForm) (now : Int) (ndi : Nat) (dd : Int)
    (hfind : s.checkouts.find? (isOpenFor eid) = none) :
    handleReturn s u eid form now ndi dd = Except.error EqError.alreadyReturned := by
  unfold handleReturn
  rw [hfind]

/-- Characterization of a successful `handleReturn`. -/
theorem handleReturn_ok {s : AppState} {u : User} {eid : Nat}
    {form : ReturnForm} {now : Int} {ndi : Nat} {dd : Int} {s' : AppState}
    (h : handleReturn s u eid form now ndi dd = Except.ok s') :
    ∃ active, s.checkouts.find? (isOpenFor eid) = some active
      ∧ active.equipment_id = eid ∧ active.return_date = none
      ∧ s'.checkouts = (s.checkouts.map fun c =>
          if c.id = active.id then closedRow active form now else c)
      ∧ s'.deficiencies = (if form.condition = RetCondition.deficiency ∧
            form.deficiencyDesc ≠ "" then
          s.deficiencies ++ [returnDefRow u eid active form ndi dd]
        else s.deficiencies)
      ∧ s'.equipment = (if (form.condition = RetCondition.deficiency ∧
            form.deficiencyDesc ≠ "") ∧ form.severity = Severity.major then
          setStatus eid Status.needsRepair (setStatus eid Status.available s.equipment)
        else setStatus eid Status.available s.equipment) := by
  cases hfind : s.checkouts.find? (isOpenFor eid) with
  | none =>
    rw [handleReturn_err s u eid form now ndi dd hfind] at h
    exact absurd h (by simp)
  | some active =>
    rw [handleReturn_eq s u eid form now ndi dd active hfind] at h
    obtain rfl := Except.ok.inj h
    have hopen := List.find?_some hfind
    rw [isOpenFor, decide_eq_true_eq] at hopen
    obtain ⟨heq, hret⟩ := hopen
    have hretEq : update_equipment_status_on_return active
        (closedRow active form now) s.equipment
        = setStatus eid Status.available s.equipment := by
      unfold update_equipment_status_on_return
      rw [if_pos]
      · show setStatus active.equipment_id _ _ = _
        rw [heq]
      · exact ⟨rfl, hret⟩
    refine ⟨active, rfl, heq, hret, ?_, ?_, ?_⟩
    · split <;> rfl
    · split <;> rfl
    · by_cases hc : form.condition = RetCondition.deficiency ∧ form.deficiencyDesc ≠ ""
      · rw [if_pos hc]
        show update_equipment_on_deficiency_insert _ _ = _
        unfold update_equipment_on_deficiency_insert
        by_cases hsev : form.severity = Severity.major
        · rw [if_pos (show (returnDefRow u eid active form ndi dd).severity
              = Severity.major from hsev), if_pos ⟨hc, hsev⟩, hretEq]
          rfl
        · rw [if_neg (show ¬ (returnDefRow u eid active form ndi dd).severity
              = Severity.major from hsev), if_neg (by tauto), hretEq]
      · rw [if_neg hc, if_neg (by tauto)]
        exact hretEq

/-- Deficiency row inserted by a standalone report. -/
def reportRow (u : User) (eid : Nat) (desc : String) (sev : Severity)
    (newId : Nat) (date : Int) : Deficiency :=
  { id := newId, equipment_id := eid, checkout_id := none,
    reported_by := u.id, reported_date := date, description := desc,
    severity := sev, status := DefStatus.pending, resolved_by := none,
    resolved_date := none, resolution_notes := none }

/-- Characterization of a successful `reportDeficiency`. -/
theorem reportDeficiency_ok {s : AppState} {u : User} {eid : Nat}
    {desc : String} {sev : Severity} {nid : Nat} {date : Int} {s' : AppState}
    (h : reportDeficiency s u eid desc sev nid date = Except.ok s') :
    s.equipment.any (fun e => decide (e.id = eid)) = true
    ∧ s'.checkouts = s.checkouts
    ∧ s'.deficiencies = s.deficiencies ++ [reportRow u eid desc sev nid date]
    ∧ s'.equipment = (if sev = Severity.major then
        setStatus eid Status.needsRepair s.equipment else s.equipment) := by
  unfold reportDeficiency at h
  split at h
  next hex =>
    obtain rfl := Except.ok.inj h
    exact ⟨hex, rfl, rfl, rfl⟩
  next hex => exact absurd h (by simp)

/-- Row update written by `resolveDeficiency`. -/
def resolveUpd (u : User) (defId : Nat) (date : Int) (x : Deficiency) : Deficiency :=
  if x.id = defId then
    { x with status := DefStatus.resolved, resolved_by := some u.id,
             resolved_date := some date, resolution_notes := some "Resolved" }
  else x

/-- Result of `resolveDeficiency` for an actor without the manage capability. -/
theorem resolveDeficiency_noauth_eq (s : AppState) (u : User) (defId : Nat)
    (date : Int) (h : canManageInventory u = false) :
    resolveDeficiency s u defId date = Except.ok s := by
  unfold resolveDeficiency
  rw [if_neg]
  simp [h]

/-- Result of `resolveDeficiency` when no row has the id. -/
theorem resolveDeficiency_notfound_eq (s : AppState) (u : User) (defId : Nat)
    (date : Int) (hmgr : canManageInventory u = true)
    (hfind : s.deficiencies.find? (fun x => decide (x.id = defId)) = none) :
    resolveDeficiency s u defId date = Except.ok
      { s with deficiencies := s.deficiencies.map (resolveUpd u defId date) } := by
  unfold resolveDeficiency resolveUpd
  rw [if_pos hmgr, hfind]

/-- Result of `resolveDeficiency` when the row is found. -/
theorem resolveDeficiency_found_eq (s : AppState) (u : User) (defId : Nat)
    (date : Int) (d : Deficiency) (hmgr : canManageInventory u = true)
    (hfind : s.deficiencies.find? (fun x => decide (x.id = defId)) = some d) :
    resolveDeficiency s u defId date = Except.ok
      { equipment := update_equipment_on_deficiency_update d
          (resolveUpd u defId date d) (s.deficiencies.map (resolveUpd u defId date))
          s.checkouts s.equipment,
        checkouts := s.checkouts,
        deficiencies := s.deficiencies.map (resolveUpd u defId date) } := by
  unfold resolveDeficiency resolveUpd
  rw [if_pos hmgr, hfind]

/-- Pending-major check over the deficiency table after a resolution update. -/
theorem anyPM_map_resolveUpd (u : User) (defId : Nat) (date : Int)
    (l : List Deficiency) (x : Nat) :
    (l.map (resolveUpd u defId date)).any (isPendingMajorFor x) = true
      ↔ ∃ d' ∈ l, d'.id ≠ defId ∧ isPendingMajorFor x d' = true := by
  rw [List.any_map, List.any_eq_true]
  constructor
  · rintro ⟨d', hd', hp⟩
    by_cases hid : d'.id = defId
    · exfalso
      simp [Function.comp, resolveUpd, if_pos hid, isPendingMajorFor] at hp
    · exact ⟨d', hd', hid, by simpa [Function.comp, resolveUpd, if_neg hid] using hp⟩
  · rintro ⟨d', hd', hid, hp⟩
    exact ⟨d', hd', by simpa [Function.comp, resolveUpd, if_neg hid] using hp⟩

/-! Claim C4: double return. -/

/-- C4: after a successful return of equipment `eid` (closing the unique
open checkout `c₀`), a second `returnEquipment` call for it fails with
AlreadyReturnedError — it produces no new state, so the recorded return
timestamp, the return condition (both shown persisted in the lookup
conjunct) and the resulting equipment status persist unchanged. -/
theorem C4_double_return (s₀ s₁ : AppState) (u u' : User) (eid : Nat)
    (f f' : ReturnForm) (t t' : Int) (ni ni' : Nat) (dd dd' : Int)
    (c₀ : Checkout)
    (hopen : s₀.checkouts.find? (isOpenFor eid) = some c₀)
    (hcount : countOpen eid s₀ ≤ 1)
    (h1 : handleReturn s₀ u eid f t ni dd = Except.ok s₁) :
    handleReturn s₁ u' eid f' t' ni' dd' = Except.error EqError.alreadyReturned
    ∧ s₁.checkouts.find? (fun c => decide (c.id = c₀.id))
        = some (closedRow c₀ f t) := by
  obtain ⟨active, hfind, heq, hret, hcks, hdefs, heqp⟩ := handleReturn_ok h1
  rw [hopen] at hfind
  obtain rfl : c₀ = active := Option.some.inj hfind
  have hmem : c₀ ∈ s₀.checkouts := List.mem_of_find?_eq_some hopen
  have hopen₀ : isOpenFor eid c₀ = true := List.find?_some hopen
  have hnone : s₁.checkouts.find? (isOpenFor eid) = none := by
    rw [List.find?_eq_none]
    intro c hc
    rw [hcks] at hc
    obtain ⟨c₁, hc₁, rfl⟩ := List.mem_map.mp hc
    by_cases hid : c₁.id = c₀.id
    · rw [if_pos hid]
      simp [closedRow, isOpenFor]
    · rw [if_neg hid]
      intro hopen₁
      have hmemf : c₁ ∈ s₀.checkouts.filter (isOpenFor eid) :=
        List.mem_filter.mpr ⟨hc₁, hopen₁⟩
      have hmemf₀ : c₀ ∈ s₀.checkouts.filter (isOpenFor eid) :=
        List.mem_filter.mpr ⟨hmem, hopen₀⟩
      exact hid (congrArg Checkout.id (mem_len_le_one_eq hcount hmemf hmemf₀))
  refine ⟨handleReturn_err s₁ u' eid f' t' ni' dd' hnone, ?_⟩
  rw [hcks]
  rw [find?_id_map_const Checkout.id c₀.id (closedRow c₀ f t) rfl
    s₀.checkouts]
  have hne : s₀.checkouts.find? (fun c => decide (c.id = c₀.id)) ≠ none := by
    rw [Ne, List.find?_eq_none]
    intro hall
    have h3 := hall c₀ hmem
    simp at h3
  cases hfind₂ : s₀.checkouts.find? (fun c => decide (c.id = c₀.id)) with
  | none => exact absurd hfind₂ hne
  | some c₂ => rw [Option.map_some']

/-- Sample open checkout of the mower by the volunteer. -/
def ckOpen : Checkout :=
  { id := 100, equipment_id := 0, user_id := 2, checkout_date := 0,
    expected_return := none, return_date := none, use_type := UseType.club,
    purpose := none, return_condition := none }

/-- Sample state with the mower checked out. -/
def sC4 : AppState :=
  { equipment := [{ eqMower with status := Status.checkedOut }],
    checkouts := [ckOpen], deficiencies := [] }

/-- Closed version of the sample checkout (returned good at time 5). -/
def ckClosed : Checkout :=
  { ckOpen with return_date := some 5, return_condition := some RetCondition.good }

/-- Sample state after returning the mower in good condition at time 5. -/
def sC4ret : AppState :=
  { equipment := [eqMower], checkouts := [ckClosed], deficiencies := [] }

/-- C4 witness: a concrete first return succeeds, and the theorem gives the
rejection of the second. -/
theorem C4_double_return_witness :
    sC4.checkouts.find? (isOpenFor 0) = some ckOpen
    ∧ countOpen 0 sC4 ≤ 1
    ∧ handleReturn sC4 uVol 0 rformGood 5 50 5 = Except.ok sC4ret
    ∧ handleReturn sC4ret uVol 0 rformGood 6 51 6
        = Except.error EqError.alreadyReturned :=
  ⟨by decide, by decide, by decide,
    (C4_double_return sC4 sC4ret uVol uVol 0 rformGood rformGood 5 6 50 51 5 6
      ckOpen (by decide) (by decide) (by decide)).1⟩

/-- Boolean equality from logical equivalence of truth. -/
theorem bool_eq_of_iff {a b : Bool} (h : a = true ↔ b = true) : a = b := by
  cases a <;> cases b <;> simp_all

/-- Membership form of the pending-major check. -/
theorem anyPM_iff (l : List Deficiency) (x : Nat) :
    l.any (isPendingMajorFor x) = true
      ↔ ∃ d ∈ l, d.equipment_id = x ∧ d.severity = Severity.major
          ∧ d.status = DefStatus.pending := by
  simp [List.any_eq_true, isPendingMajorFor]

/-- Membership form of the open-checkout check. -/
theorem anyOpen_iff (l : List Checkout) (x : Nat) :
    l.any (isOpenFor x) = true
      ↔ ∃ c ∈ l, c.equipment_id = x ∧ c.return_date = none := by
  simp [List.any_eq_true, isOpenFor]

/-- Characterization of an `available` recompute result. -/
theorem recompute_available_iff (s : AppState) (x : Nat) :
    recomputeStatus s x = Status.available
      ↔ (s.deficiencies.any (isPendingMajorFor x) = false
          ∧ s.checkouts.any (isOpenFor x) = false) := by
  unfold recomputeStatus
  cases hpm : s.deficiencies.any (isPendingMajorFor x) <;>
    cases hop : s.checkouts.any (isOpenFor x) <;> simp [hpm, hop]

/-- Recompute over explicit table contents. -/
theorem recompute_ext (s' : AppState) (x : Nat) (defs : List Deficiency)
    (cks : List Checkout) (hdefs : s'.deficiencies = defs)
    (hcks : s'.checkouts = cks) :
    recomputeStatus s' x
      = if defs.any (isPendingMajorFor x) then Status.needsRepair
        else if cks.any (isOpenFor x) then Status.checkedOut
        else Status.available := by
  unfold recomputeStatus
  rw [hdefs, hcks]

/-- Preservation of the status invariant by `handleCheckout`. -/
theorem statusInv_checkout {s : AppState} {u : User} {eid : Nat}
    {form : CheckoutForm} {ni : Nat} {now : Int} {s' : AppState}
    (hs : statusInv s)
    (h : handleCheckout s u eid form ni now = Except.ok s') : statusInv s' := by
  obtain ⟨e, hfind, hid, hst, hcks, hdefs, heqp⟩ := handleCheckout_ok h
  have heMem : e ∈ s.equipment := List.mem_of_find?_eq_some hfind
  obtain ⟨hpm, hop⟩ := (recompute_available_iff s e.id).mp
    ((hs e heMem).symm.trans hst)
  intro e' he'
  rw [heqp] at he'
  unfold setStatus at he'
  obtain ⟨e₁, h1mem, rfl⟩ := List.mem_map.mp he'
  have hrec : ∀ y : Nat, recomputeStatus s' y
      = if s.deficiencies.any (isPendingMajorFor y) then Status.needsRepair
        else if s.checkouts.any (isOpenFor y)
            || isOpenFor y (newCheckoutRow u e form ni now) then Status.checkedOut
        else Status.available := by
    intro y
    rw [recompute_ext s' y s.deficiencies
      (s.checkouts ++ [newCheckoutRow u e form ni now]) hdefs hcks,
      List.any_append]
    simp only [List.any_cons, List.any_nil, Bool.or_false]
  by_cases hxe : e₁.id = e.id
  · rw [if_pos hxe]
    show Status.checkedOut = recomputeStatus s' e₁.id
    rw [hrec e₁.id, hxe, hpm]
    rw [show isOpenFor e.id (newCheckoutRow u e form ni now) = true from
      decide_eq_true ⟨rfl, rfl⟩]
    simp
  · rw [if_neg hxe]
    show e₁.status = recomputeStatus s' e₁.id
    rw [hrec e₁.id]
    rw [show isOpenFor e₁.id (newCheckoutRow u e form ni now) = false from
      decide_eq_false (fun hh => hxe hh.1.symm)]
    rw [Bool.or_false]
    exact hs e₁ h1mem

/-- Preservation of the status invariant by `reportDeficiency`. -/
theorem statusInv_report {s : AppState} {u : User} {eid : Nat} {desc : String}
    {sev : Severity} {nid : Nat} {date : Int} {s' : AppState}
    (hs : statusInv s)
    (h : reportDeficiency s u eid desc sev nid date = Except.ok s') :
    statusInv s' := by
  obtain ⟨hex, hcks, hdefs, heqp⟩ := reportDeficiency_ok h
  have hrec : ∀ y : Nat, recomputeStatus s' y
      = if s.deficiencies.any (isPendingMajorFor y)
            || isPendingMajorFor y (reportRow u eid desc sev nid date) then
          Status.needsRepair
        else if s.checkouts.any (isOpenFor y) then Status.checkedOut
        else Status.available := by
    intro y
    rw [recompute_ext s' y
      (s.deficiencies ++ [reportRow u eid desc sev nid date]) s.checkouts
      hdefs hcks, List.any_append]
    simp only [List.any_cons, List.any_nil, Bool.or_false]
  intro e' he'
  rw [heqp] at he'
  by_cases hsev : sev = Severity.major
  · rw [if_pos hsev] at he'
    unfold setStatus at he'
    obtain ⟨e₁, h1mem, rfl⟩ := List.mem_map.mp he'
    by_cases hxe : e₁.id = eid
    · rw [if_pos hxe]
      show Status.needsRepair = recomputeStatus s' e₁.id
      rw [hrec e₁.id, hxe]
      rw [show isPendingMajorFor eid (reportRow u eid desc sev nid date) = true
        from decide_eq_true ⟨rfl, hsev, rfl⟩]
      simp
    · rw [if_neg hxe]
      show e₁.status = recomputeStatus s' e₁.id
      rw [hrec e₁.id]
      rw [show isPendingMajorFor e₁.id (reportRow u eid desc sev nid date) = false
        from decide_eq_false (fun hh => hxe hh.1.symm)]
      rw [Bool.or_false]
      exact hs e₁ h1mem
  · rw [if_neg hsev] at he'
    rw [hrec e'.id]
    rw [show isPendingMajorFor e'.id (reportRow u eid desc sev nid date) = false
      from decide_eq_false (fun hh => hsev hh.2.1)]
    rw [Bool.or_false]
    exact hs e' he'

/-- Resolution updates preserve row ids. -/
theorem resolveUpd_id (u : User) (defId : Nat) (date : Int) (x : Deficiency) :
    (resolveUpd u defId date x).id = x.id := by
  unfold resolveUpd
  split <;> rfl

/-- The trigger's other-pending-major check, read back on the original table. -/
theorem other_pending_iff (u : User) (defId : Nat) (date : Int)
    (l : List Deficiency) (R : Deficiency) (hRid : R.id = defId) :
    ((l.map (resolveUpd u defId date)).any fun d'' =>
        decide (d''.id ≠ R.id) && isPendingMajorFor R.equipment_id d'') = true
      ↔ ∃ d₂ ∈ l, d₂.id ≠ defId ∧ isPendingMajorFor R.equipment_id d₂ = true := by
  rw [List.any_map, List.any_eq_true]
  constructor
  · rintro ⟨d₂, hd₂, hp⟩
    simp only [Function.comp] at hp
    rw [Bool.and_eq_true, decide_eq_true_eq] at hp
    obtain ⟨hne, hpm⟩ := hp
    by_cases hid : d₂.id = defId
    · exfalso
      simp [resolveUpd, if_pos hid, isPendingMajorFor] at hpm
    · exact ⟨d₂, hd₂, hid, by simpa [resolveUpd, if_neg hid] using hpm⟩
  · rintro ⟨d₂, hd₂, hne, hpm⟩
    refine ⟨d₂, hd₂, ?_⟩
    simp only [Function.comp]
    rw [Bool.and_eq_true, decide_eq_true_eq]
    refine ⟨?_, ?_⟩
    · rw [resolveUpd_id, hRid]
      exact hne
    · simpa [resolveUpd, if_neg hne] using hpm

/-- Preservation of the status invariant by `resolveDeficiency`. -/
theorem statusInv_resolve {s : AppState} {u : User} {defId : Nat} {date : Int}
    {s' : AppState}
    (hs : statusInv s) (hnd : (s.deficiencies.map Deficiency.id).Nodup)
    (h : resolveDeficiency s u defId date = Except.ok s') : statusInv s' := by
  by_cases hmgr : canManageInventory u = true
  case neg =>
    rw [resolveDeficiency_noauth_eq s u defId date (by simpa using hmgr)] at h
    obtain rfl := Except.ok.inj h
    exact hs
  case pos =>
  cases hfind : s.deficiencies.find? (fun x => decide (x.id = defId)) with
  | none =>
    rw [resolveDeficiency_notfound_eq s u defId date hmgr hfind] at h
    obtain rfl := Except.ok.inj h
    have hall := List.find?_eq_none.mp hfind
    have hmap : s.deficiencies.map (resolveUpd u defId date) = s.deficiencies := by
      conv_rhs => rw [← List.map_id s.deficiencies]
      apply List.map_congr_left
      intro a ha
      have hna : ¬ a.id = defId := by simpa using hall a ha
      simp [resolveUpd, if_neg hna]
    intro e' he'
    show e'.status = if (s.deficiencies.map (resolveUpd u defId date)).any
          (isPendingMajorFor e'.id) then Status.needsRepair
        else if s.checkouts.any (isOpenFor e'.id) then Status.checkedOut
        else Status.available
    rw [hmap]
    exact hs e' he'
  | some d =>
    rw [resolveDeficiency_found_eq s u defId date d hmgr hfind] at h
    obtain rfl := Except.ok.inj h
    have hdid : d.id = defId := by simpa using List.find?_some hfind
    have hdmem : d ∈ s.deficiencies := List.mem_of_find?_eq_some hfind
    have huniq : ∀ d' ∈ s.deficiencies, d'.id = defId → d' = d :=
      fun d' hd' hd'id => nodup_key_eq hnd hd' hdmem (hd'id.trans hdid.symm)
    have hRd : resolveUpd u defId date d
        = { d with status := DefStatus.resolved, resolved_by := some u.id,
                   resolved_date := some date,
                   resolution_notes := some "Resolved" } := by
      unfold resolveUpd
      rw [if_pos hdid]
    have hRid : (resolveUpd u defId date d).id = defId := by rw [hRd]; exact hdid
    have hREq : (resolveUpd u defId date d).equipment_id = d.equipment_id := by
      rw [hRd]
    by_cases hpend : d.status = DefStatus.pending
    case neg =>
      have htrig : update_equipment_on_deficiency_update d
          (resolveUpd u defId date d)
          (s.deficiencies.map (resolveUpd u defId date)) s.checkouts s.equipment
          = s.equipment := by
        unfold update_equipment_on_deficiency_update
        rw [if_neg]
        rintro ⟨-, h2⟩
        exact hpend h2
      intro e' he'
      rw [show (AppState.equipment
        { equipment := update_equipment_on_deficiency_update d
            (resolveUpd u defId date d)
            (s.deficiencies.map (resolveUpd u defId date)) s.checkouts s.equipment,
          checkouts := s.checkouts,
          deficiencies := s.deficiencies.map (resolveUpd u defId date) })
        = s.equipment from htrig] at he'
      show e'.status = if (s.deficiencies.map (resolveUpd u defId date)).any
          (isPendingMajorFor e'.id) then Status.needsRepair
        else if s.checkouts.any (isOpenFor e'.id) then Status.checkedOut
        else Status.available
      have hPM : (s.deficiencies.map (resolveUpd u defId date)).any
          (isPendingMajorFor e'.id) = s.deficiencies.any (isPendingMajorFor e'.id) := by
        apply bool_eq_of_iff
        rw [anyPM_map_resolveUpd, List.any_eq_true]
        constructor
        · rintro ⟨d', hd', hne, hp⟩
          exact ⟨d', hd', hp⟩
        · rintro ⟨d', hd', hp⟩
          refine ⟨d', hd', ?_, hp⟩
          intro hid
          obtain rfl := huniq d' hd' hid
          rw [isPendingMajorFor, decide_eq_true_eq] at hp
          exact hpend hp.2.2
      rw [hPM]
      exact hs e' he'
    case pos =>
      have hcond : (resolveUpd u defId date d).status = DefStatus.resolved
          ∧ d.status = DefStatus.pending := ⟨by rw [hRd], hpend⟩
      intro e' he'
      have hequip : (AppState.equipment
          { equipment := update_equipment_on_deficiency_update d
              (resolveUpd u defId date d)
              (s.deficiencies.map (resolveUpd u defId date)) s.checkouts s.equipment,
            checkouts := s.checkouts,
            deficiencies := s.deficiencies.map (resolveUpd u defId date) })
          = update_equipment_on_deficiency_update d (resolveUpd u defId date d)
              (s.deficiencies.map (resolveUpd u defId date)) s.checkouts
              s.equipment := rfl
      rw [hequip] at he'
      unfold update_equipment_on_deficiency_update at he'
      rw [if_pos hcond] at he'
      cases hoth : ((s.deficiencies.map (resolveUpd u defId date)).any fun d'' =>
          decide (d''.id ≠ (resolveUpd u defId date d).id)
            && isPendingMajorFor (resolveUpd u defId date d).equipment_id d'') with
      | true =>
        rw [if_pos hoth] at he'
        obtain ⟨d₂, hd₂, hne₂, hpm₂⟩ :=
          (other_pending_iff u defId date s.deficiencies
            (resolveUpd u defId date d) hRid).mp hoth
        rw [hREq] at hpm₂
        have hPMeq : ∀ y, (s.deficiencies.map (resolveUpd u defId date)).any
            (isPendingMajorFor y) = s.deficiencies.any (isPendingMajorFor y) := by
          intro y
          apply bool_eq_of_iff
          rw [anyPM_map_resolveUpd, List.any_eq_true]
          constructor
          · rintro ⟨d', hd', hne, hp⟩
            exact ⟨d', hd', hp⟩
          · rintro ⟨d', hd', hp⟩
            by_cases hid : d'.id = defId
            · obtain rfl := huniq d' hd' hid
              have hy : d'.equipment_id = y := by
                rw [isPendingMajorFor, decide_eq_true_eq] at hp
                exact hp.1
              exact ⟨d₂, hd₂, hne₂, by rw [← hy]; exact hpm₂⟩
            · exact ⟨d', hd', hid, hp⟩
        show e'.status = if (s.deficiencies.map (resolveUpd u defId date)).any
          (isPendingMajorFor e'.id) then Status.needsRepair
        else if s.checkouts.any (isOpenFor e'.id) then Status.checkedOut
        else Status.available
        rw [hPMeq e'.id]
        exact hs e' he'
      | false =>
        rw [if_neg (by rw [hoth]; exact Bool.false_ne_true)] at he'
        rw [hREq] at he'
        have hPMnone : (s.deficiencies.map (resolveUpd u defId date)).any
            (isPendingMajorFor d.equipment_id) = false := by
          cases hcase : (s.deficiencies.map (resolveUpd u defId date)).any
              (isPendingMajorFor d.equipment_id) with
          | false => rfl
          | true =>
            obtain ⟨d', hd', hne, hp⟩ := (anyPM_map_resolveUpd u defId date
              s.deficiencies d.equipment_id).mp hcase
            have : ((s.deficiencies.map (resolveUpd u defId date)).any fun d'' =>
                decide (d''.id ≠ (resolveUpd u defId date d).id)
                  && isPendingMajorFor (resolveUpd u defId date d).equipment_id d'')
                = true := by
              apply (other_pending_iff u defId date s.deficiencies
                (resolveUpd u defId date d) hRid).mpr
              refine ⟨d', hd', hne, ?_⟩
              rw [hREq]
              exact hp
            rw [hoth] at this
            exact absurd this Bool.false_ne_true
        have hPMother : ∀ y, y ≠ d.equipment_id →
            (s.deficiencies.map (resolveUpd u defId date)).any (isPendingMajorFor y)
              = s.deficiencies.any (isPendingMajorFor y) := by
          intro y hy
          apply bool_eq_of_iff
          rw [anyPM_map_resolveUpd, List.any_eq_true]
          constructor
          · rintro ⟨d', hd', hne, hp⟩
            exact ⟨d', hd', hp⟩
          · rintro ⟨d', hd', hp⟩
            refine ⟨d', hd', ?_, hp⟩
            intro hid
            obtain rfl := huniq d' hd' hid
            rw [isPendingMajorFor, decide_eq_true_eq] at hp
            exact hy hp.1.symm
        cases hopExist : s.checkouts.any (isOpenFor d.equipment_id) with
        | true =>
          rw [if_pos hopExist] at he'
          unfold setStatus at he'
          obtain ⟨e₁, h1mem, rfl⟩ := List.mem_map.mp he'
          by_cases hxe : e₁.id = d.equipment_id
          · rw [if_pos hxe]
            show Status.checkedOut = if (s.deficiencies.map (resolveUpd u defId date)).any
              (isPendingMajorFor e₁.id) then Status.needsRepair
            else if s.checkouts.any (isOpenFor e₁.id) then Status.checkedOut
            else Status.available
            rw [hxe, hPMnone, hopExist]
            simp
          · rw [if_neg hxe]
            show e₁.status = if (s.deficiencies.map (resolveUpd u defId date)).any
              (isPendingMajorFor e₁.id) then Status.needsRepair
            else if s.checkouts.any (isOpenFor e₁.id) then Status.checkedOut
            else Status.available
            rw [hPMother e₁.id hxe]
            exact hs e₁ h1mem
        | false =>
          rw [if_neg (by rw [hopExist]; exact Bool.false_ne_true)] at he'
          unfold setStatus at he'
          obtain ⟨e₁, h1mem, rfl⟩ := List.mem_map.mp he'
          by_cases hxe : e₁.id = d.equipment_id
          · rw [if_pos hxe]
            show Status.available = if (s.deficiencies.map (resolveUpd u defId date)).any
              (isPendingMajorFor e₁.id) then Status.needsRepair
            else if s.checkouts.any (isOpenFor e₁.id) then Status.checkedOut
            else Status.available
            rw [hxe, hPMnone, hopExist]
            simp
          · rw [if_neg hxe]
            show e₁.status = if (s.deficiencies.map (resolveUpd u defId date)).any
              (isPendingMajorFor e₁.id) then Status.needsRepair
            else if s.checkouts.any (isOpenFor e₁.id) then Status.checkedOut
            else Status.available
            rw [hPMother e₁.id hxe]
            exact hs e₁ h1mem

/-- Closing the unique open checkout leaves no open checkout. -/
theorem no_open_after_close (cs : List Checkout) (c₀ : Checkout) (eid : Nat)
    (f : ReturnForm) (now : Int) (hmem : c₀ ∈ cs)
    (hopen : isOpenFor eid c₀ = true)
    (hcount : (cs.filter (isOpenFor eid)).length ≤ 1) :
    ((cs.map fun c => if c.id = c₀.id then closedRow c₀ f now else c).any
      (isOpenFor eid)) = false := by
  rw [List.any_map, List.any_eq_false]
  intro c hc
  simp only [Function.comp]
  by_cases hcid : c.id = c₀.id
  · rw [if_pos hcid]
    simp [closedRow, isOpenFor]
  · rw [if_neg hcid]
    intro hopen₁
    have hmemf : c ∈ cs.filter (isOpenFor eid) := List.mem_filter.mpr ⟨hc, hopen₁⟩
    have hmemf₀ : c₀ ∈ cs.filter (isOpenFor eid) :=
      List.mem_filter.mpr ⟨hmem, hopen⟩
    exact hcid (congrArg Checkout.id (mem_len_le_one_eq hcount hmemf hmemf₀))

/-- Closing a checkout for one equipment leaves the open-checkout check of
other equipment unchanged (checkout ids are unique). -/
theorem open_other_after_close (cs : List Checkout) (c₀ : Checkout) (eid : Nat)
    (f : ReturnForm) (now : Int) (hmem : c₀ ∈ cs) (heq : c₀.equipment_id = eid)
    (hnd : (cs.map Checkout.id).Nodup) :
    ∀ y, y ≠ eid →
      ((cs.map fun c => if c.id = c₀.id then closedRow c₀ f now else c).any
        (isOpenFor y)) = cs.any (isOpenFor y) := by
  intro y hy
  rw [List.any_map]
  apply any_ext
  intro c hc
  simp only [Function.comp]
  by_cases hcid : c.id = c₀.id
  · have hceq : c = c₀ := nodup_key_eq hnd hc hmem hcid
    rw [hceq, if_pos rfl]
    rw [show isOpenFor y (closedRow c₀ f now) = false from
      decide_eq_false (fun hh => Option.noConfusion hh.2)]
    rw [show isOpenFor y c₀ = false from
      decide_eq_false (fun hh => hy (hh.1.symm.trans heq))]
  · rw [if_neg hcid]

/-- Preservation of the status invariant by `handleReturn`, provided no
pending major deficiency exists beforehand or the return itself reports a
major one. -/
theorem statusInv_return {s : AppState} {u : User} {eid : Nat}
    {form : ReturnForm} {now : Int} {ndi : Nat} {dd : Int} {s' : AppState}
    (hs : statusInv s) (ho : openInv s)
    (hndc : (s.checkouts.map Checkout.id).Nodup)
    (hq : s.deficiencies.any (isPendingMajorFor eid) = false
          ∨ (form.condition = RetCondition.deficiency ∧ form.deficiencyDesc ≠ ""
             ∧ form.severity = Severity.major))
    (h : handleReturn s u eid form now ndi dd = Except.ok s') : statusInv s' := by
  obtain ⟨active, hfind, heq, hret, hcks, hdefs, heqp⟩ := handleReturn_ok h
  have hamem : active ∈ s.checkouts := List.mem_of_find?_eq_some hfind
  have haopen : isOpenFor eid active = true := List.find?_some hfind
  have hopother : ∀ y, y ≠ eid →
      ((s.checkouts.map fun c =>
          if c.id = active.id then closedRow active form now else c).any
        (isOpenFor y)) = s.checkouts.any (isOpenFor y) :=
    open_other_after_close s.checkouts active eid form now hamem heq hndc
  intro e' he'
  rw [heqp] at he'
  by_cases hcm : (form.condition = RetCondition.deficiency
      ∧ form.deficiencyDesc ≠ "") ∧ form.severity = Severity.major
  · rw [if_pos hcm] at he'
    rw [if_pos hcm.1] at hdefs
    unfold setStatus at he'
    obtain ⟨e₂, h2mem, rfl⟩ := List.mem_map.mp he'
    obtain ⟨e₁, h1mem, rfl⟩ := List.mem_map.mp h2mem
    have hrec : ∀ y : Nat, recomputeStatus s' y
        = if s.deficiencies.any (isPendingMajorFor y)
              || isPendingMajorFor y (returnDefRow u eid active form ndi dd) then
            Status.needsRepair
          else if ((s.checkouts.map fun c =>
              if c.id = active.id then closedRow active form now else c).any
            (isOpenFor y)) then Status.checkedOut
          else Status.available := by
      intro y
      rw [recompute_ext s' y
        (s.deficiencies ++ [returnDefRow u eid active form ndi dd])
        (s.checkouts.map fun c =>
          if c.id = active.id then closedRow active form now else c)
        hdefs hcks, List.any_append]
      simp only [List.any_cons, List.any_nil, Bool.or_false]
    by_cases hxe : e₁.id = eid
    · rw [if_pos hxe]
      rw [if_pos (show (Equipment.id { e₁ with status := Status.available })
        = eid from hxe)]
      show Status.needsRepair = recomputeStatus s' e₁.id
      rw [hrec e₁.id, hxe]
      rw [show isPendingMajorFor eid (returnDefRow u eid active form ndi dd)
        = true from decide_eq_true ⟨rfl, hcm.2, rfl⟩]
      simp
    · rw [if_neg hxe]
      rw [if_neg hxe]
      show e₁.status = recomputeStatus s' e₁.id
      rw [hrec e₁.id]
      rw [show isPendingMajorFor e₁.id (returnDefRow u eid active form ndi dd)
        = false from decide_eq_false (fun hh => hxe hh.1.symm)]
      rw [Bool.or_false, hopother e₁.id hxe]
      exact hs e₁ h1mem
  · rw [if_neg hcm] at he'
    have hpm0 : s.deficiencies.any (isPendingMajorFor eid) = false := by
      cases hq with
      | inl h0 => exact h0
      | inr hr => exact absurd ⟨⟨hr.1, hr.2.1⟩, hr.2.2⟩ hcm
    have hPM' : ∀ y, s'.deficiencies.any (isPendingMajorFor y)
        = s.deficiencies.any (isPendingMajorFor y) := by
      intro y
      rw [hdefs]
      by_cases hc : form.condition = RetCondition.deficiency
          ∧ form.deficiencyDesc ≠ ""
      · rw [if_pos hc, List.any_append]
        have hminor : ¬ form.severity = Severity.major := fun hmaj => hcm ⟨hc, hmaj⟩
        rw [show ([returnDefRow u eid active form ndi dd].any
            (isPendingMajorFor y)) = false by
          simp only [List.any_cons, List.any_nil, Bool.or_false]
          exact decide_eq_false (fun hh => hminor hh.2.1)]
        rw [Bool.or_false]
      · rw [if_neg hc]
    unfold setStatus at he'
    obtain ⟨e₁, h1mem, rfl⟩ := List.mem_map.mp he'
    have hrec : ∀ y : Nat, recomputeStatus s' y
        = if s.deficiencies.any (isPendingMajorFor y) then Status.needsRepair
          else if ((s.checkouts.map fun c =>
              if c.id = active.id then closedRow active form now else c).any
            (isOpenFor y)) then Status.checkedOut
          else Status.available := by
      intro y
      rw [recompute_ext s' y s'.deficiencies
        (s.checkouts.map fun c =>
          if c.id = active.id then closedRow active form now else c)
        rfl hcks, hPM' y]
    by_cases hxe : e₁.id = eid
    · rw [if_pos hxe]
      show Status.available = recomputeStatus s' e₁.id
      have hcnt : (s.checkouts.filter (isOpenFor eid)).length ≤ 1 := by
        have := ho e₁ h1mem
        rw [countOpen] at this
        rw [← hxe]
        exact this
      rw [hrec e₁.id, hxe, hpm0]
      rw [no_open_after_close s.checkouts active eid form now hamem haopen
        (by rw [← hxe] at hcnt ⊢; exact hcnt)]
      simp
    · rw [if_neg hxe]
      show e₁.status = recomputeStatus s' e₁.id
      rw [hrec e₁.id, hopother e₁.id hxe]
      exact hs e₁ h1mem

/-- C1 amended: after `handleCheckout`, `reportDeficiency` and
`resolveDeficiency`, every equipment's status equals the recompute function;
after `handleReturn` the same holds provided no pending major deficiency
exists beforehand or the return itself reports a major one — in the excluded
case the return trigger sets `available` while the recompute function says
`needs-repair`. -/
theorem C1_status_recompute (s : AppState)
    (hs : statusInv s) (ho : openInv s)
    (hndc : (s.checkouts.map Checkout.id).Nodup)
    (hndd : (s.deficiencies.map Deficiency.id).Nodup) :
    (∀ u eid form ni now s',
      handleCheckout s u eid form ni now = Except.ok s' → statusInv s')
    ∧ (∀ u eid desc sev nid date s',
      reportDeficiency s u eid desc sev nid date = Except.ok s' → statusInv s')
    ∧ (∀ u defId date s',
      resolveDeficiency s u defId date = Except.ok s' → statusInv s')
    ∧ (∀ u eid form now ndi dd s',
      (s.deficiencies.any (isPendingMajorFor eid) = false
        ∨ (form.condition = RetCondition.deficiency ∧ form.deficiencyDesc ≠ ""
           ∧ form.severity = Severity.major)) →
      handleReturn s u eid form now ndi dd = Except.ok s' → statusInv s') :=
  ⟨fun _ _ _ _ _ _ h => statusInv_checkout hs h,
   fun _ _ _ _ _ _ _ h => statusInv_report hs h,
   fun _ _ _ _ h => statusInv_resolve hs hndd h,
   fun _ _ _ _ _ _ _ hq h => statusInv_return hs ho hndc hq h⟩

/-- Sample state after checking out the mower (id 100, time 0). -/
def sOut : AppState :=
  { equipment := [{ eqMower with status := Status.checkedOut }],
    checkouts := [ckOpen], deficiencies := [] }

/-- C1 witness: the preserved invariant evaluated on a concrete checkout. -/
theorem C1_status_recompute_witness :
    statusInv sInit ∧ openInv sInit
    ∧ handleCheckout sInit uVol 0 cform 100 0 = Except.ok sOut
    ∧ statusInv sOut :=
  ⟨by decide, by decide, by decide,
    (C1_status_recompute sInit (by decide) (by decide) (by decide)
      (by decide)).1 uVol 0 cform 100 0 sOut (by decide)⟩

/-- Appending one row changes the open count by its openness. -/
theorem countOpen_append_row (cs : List Checkout) (row : Checkout) (y : Nat) :
    ((cs ++ [row]).filter (isOpenFor y)).length
      = (cs.filter (isOpenFor y)).length
        + (if isOpenFor y row then 1 else 0) := by
  rw [List.filter_append, List.length_append]
  congr 1
  cases hr : isOpenFor y row <;> simp [List.filter_cons, hr]

/-- Closing a row never increases the open count. -/
theorem countOpen_map_close_le (cs : List Checkout) (c₀ : Checkout)
    (f : ReturnForm) (now : Int) (y : Nat) :
    (((cs.map fun c => if c.id = c₀.id then closedRow c₀ f now else c).filter
        (isOpenFor y)).length)
      ≤ ((cs.filter (isOpenFor y)).length) := by
  induction cs with
  | nil => simp
  | cons c cs ih =>
    rw [List.map_cons]
    by_cases hcid : c.id = c₀.id
    · rw [if_pos hcid]
      have hcl : isOpenFor y (closedRow c₀ f now) = false :=
        decide_eq_false (fun hh => Option.noConfusion hh.2)
      rw [List.filter_cons, List.filter_cons, hcl]
      cases hoc : isOpenFor y c
      · rw [if_neg (by simp), if_neg (by simp)]
        exact ih
      · rw [if_neg (by simp), if_pos rfl, List.length_cons]
        exact Nat.le_succ_of_le ih
    · rw [if_neg hcid]
      rw [List.filter_cons, List.filter_cons]
      cases hoc : isOpenFor y c
      · rw [if_neg (by simp), if_neg (by simp)]
        exact ih
      · rw [if_pos rfl, if_pos rfl, List.length_cons, List.length_cons]
        exact Nat.succ_le_succ ih

/-- Membership in a `setStatus` result. -/
theorem mem_setStatus {l : List Equipment} {a : Nat} {st : Status}
    {e' : Equipment} (h : e' ∈ setStatus a st l) :
    ∃ e₁ ∈ l, e'.id = e₁.id
      ∧ ((e₁.id = a ∧ e' = { e₁ with status := st })
          ∨ (¬ e₁.id = a ∧ e' = e₁)) := by
  unfold setStatus at h
  obtain ⟨e₁, h1, rfl⟩ := List.mem_map.mp h
  by_cases hxe : e₁.id = a
  · exact ⟨e₁, h1, by rw [if_pos hxe], Or.inl ⟨hxe, by rw [if_pos hxe]⟩⟩
  · exact ⟨e₁, h1, by rw [if_neg hxe], Or.inr ⟨hxe, by rw [if_neg hxe]⟩⟩

/-- Open-checkout invariants preserved by `handleCheckout`. -/
theorem openInv_checkout {s : AppState} {u : User} {eid : Nat}
    {form : CheckoutForm} {ni : Nat} {now : Int} {s' : AppState}
    (ho : openInv s) (ha : availNoOpen s)
    (h : handleCheckout s u eid form ni now = Except.ok s') :
    openInv s' ∧ availNoOpen s' := by
  obtain ⟨e, hfind, hid, hst, hcks, hdefs, heqp⟩ := handleCheckout_ok h
  have heMem : e ∈ s.equipment := List.mem_of_find?_eq_some hfind
  have hcnt0 : countOpen e.id s = 0 := ha e heMem hst
  have hcount' : ∀ y, countOpen y s'
      = countOpen y s + (if isOpenFor y (newCheckoutRow u e form ni now)
          then 1 else 0) := by
    intro y
    unfold countOpen
    rw [hcks, countOpen_append_row]
  constructor
  · intro e' he'
    rw [heqp] at he'
    obtain ⟨e₁, h1mem, hidEq, hcases⟩ := mem_setStatus he'
    rw [hidEq, hcount' e₁.id]
    by_cases hxe : e₁.id = e.id
    · rw [hxe, hcnt0]
      cases hr : isOpenFor e.id (newCheckoutRow u e form ni now) <;> simp
    · rw [show isOpenFor e₁.id (newCheckoutRow u e form ni now) = false from
        decide_eq_false (fun hh => hxe hh.1.symm)]
      simpa using ho e₁ h1mem
  · intro e' he' hst'
    rw [heqp] at he'
    obtain ⟨e₁, h1mem, hidEq, hcases⟩ := mem_setStatus he'
    rcases hcases with ⟨hxe, rfl⟩ | ⟨hxe, rfl⟩
    · exact Status.noConfusion hst'
    · rw [hcount' e'.id, ha e' h1mem hst']
      rw [show isOpenFor e'.id (newCheckoutRow u e form ni now) = false from
        decide_eq_false (fun hh => hxe hh.1.symm)]
      rfl

/-- Open-checkout invariants preserved by `handleReturn`. -/
theorem openInv_return {s : AppState} {u : User} {eid : Nat}
    {form : ReturnForm} {now : Int} {ndi : Nat} {dd : Int} {s' : AppState}
    (ho : openInv s) (ha : availNoOpen s)
    (h : handleReturn s u eid form now ndi dd = Except.ok s') :
    openInv s' ∧ availNoOpen s' := by
  obtain ⟨active, hfind, heq, hret, hcks, hdefs, heqp⟩ := handleReturn_ok h
  have hamem : active ∈ s.checkouts := List.mem_of_find?_eq_some hfind
  have haopen : isOpenFor eid active = true := List.find?_some hfind
  have hle : ∀ y, countOpen y s' ≤ countOpen y s := by
    intro y
    unfold countOpen
    rw [hcks]
    exact countOpen_map_close_le s.checkouts active form now y
  constructor
  · intro e' he'
    rw [heqp] at he'
    have hex : ∃ e₁ ∈ s.equipment, e'.id = e₁.id := by
      by_cases hcm : (form.condition = RetCondition.deficiency
          ∧ form.deficiencyDesc ≠ "") ∧ form.severity = Severity.major
      · rw [if_pos hcm] at he'
        obtain ⟨e₂, h2, hid2, -⟩ := mem_setStatus he'
        obtain ⟨e₁, h1, hid1, -⟩ := mem_setStatus h2
        exact ⟨e₁, h1, hid2.trans hid1⟩
      · rw [if_neg hcm] at he'
        obtain ⟨e₁, h1, hid1, -⟩ := mem_setStatus he'
        exact ⟨e₁, h1, hid1⟩
    obtain ⟨e₁, h1mem, hidEq⟩ := hex
    rw [hidEq]
    exact le_trans (hle e₁.id) (ho e₁ h1mem)
  · intro e' he' hst'
    rw [heqp] at he'
    by_cases hcm : (form.condition = RetCondition.deficiency
        ∧ form.deficiencyDesc ≠ "") ∧ form.severity = Severity.major
    · rw [if_pos hcm] at he'
      obtain ⟨e₂, h2, hid2, hcase2⟩ := mem_setStatus he'
      rcases hcase2 with ⟨hx2, rfl⟩ | ⟨hx2, rfl⟩
      · exact Status.noConfusion hst'
      · obtain ⟨e₁, h1, hid1, hcase1⟩ := mem_setStatus h2
        rcases hcase1 with ⟨hx1, rfl⟩ | ⟨hx1, rfl⟩
        · exact absurd hx1 hx2
        · have h0 : countOpen e'.id s = 0 := ha e' h1 hst'
          exact Nat.le_zero.mp (h0 ▸ hle e'.id)
    · rw [if_neg hcm] at he'
      obtain ⟨e₁, h1, hid1, hcase1⟩ := mem_setStatus he'
      rcases hcase1 with ⟨hx1, rfl⟩ | ⟨hx1, rfl⟩
      · have hcnt : (s.checkouts.filter (isOpenFor eid)).length ≤ 1 := by
          have hh := ho e₁ h1
          unfold countOpen at hh
          rw [hx1] at hh
          exact hh
        have hnone := no_open_after_close s.checkouts active eid form now
          hamem haopen hcnt
        show countOpen (Equipment.id { e₁ with status := Status.available }) s' = 0
        unfold countOpen
        rw [hcks]
        rw [show (Equipment.id { e₁ with status := Status.available }) = eid
          from hx1]
        rw [List.length_eq_zero, List.filter_eq_nil]
        exact List.any_eq_false.mp hnone
      · have h0 : countOpen e'.id s = 0 := ha e' h1 hst'
        exact Nat.le_zero.mp (h0 ▸ hle e'.id)

/-- Open-checkout invariants preserved by `reportDeficiency`. -/
theorem openInv_report {s : AppState} {u : User} {eid : Nat} {desc : String}
    {sev : Severity} {nid : Nat} {date : Int} {s' : AppState}
    (ho : openInv s) (ha : availNoOpen s)
    (h : reportDeficiency s u eid desc sev nid date = Except.ok s') :
    openInv s' ∧ availNoOpen s' := by
  obtain ⟨hex, hcks, hdefs, heqp⟩ := reportDeficiency_ok h
  have hco : ∀ y, countOpen y s' = countOpen y s := by
    intro y
    unfold countOpen
    rw [hcks]
  constructor
  · intro e' he'
    rw [heqp] at he'
    by_cases hsev : sev = Severity.major
    · rw [if_pos hsev] at he'
      obtain ⟨e₁, h1, hid1, -⟩ := mem_setStatus he'
      rw [hid1, hco]
      exact ho e₁ h1
    · rw [if_neg hsev] at he'
      rw [hco]
      exact ho e' he'
  · intro e' he' hst'
    rw [heqp] at he'
    by_cases hsev : sev = Severity.major
    · rw [if_pos hsev] at he'
      obtain ⟨e₁, h1, hid1, hcase⟩ := mem_setStatus he'
      rcases hcase with ⟨hx, rfl⟩ | ⟨hx, rfl⟩
      · exact Status.noConfusion hst'
      · rw [hco]
        exact ha e' h1 hst'
    · rw [if_neg hsev] at he'
      rw [hco]
      exact ha e' he' hst'

/-- Case analysis of the state produced by `resolveDeficiency`. -/
theorem resolve_equip_cases {s : AppState} {u : User} {defId : Nat}
    {date : Int} {s' : AppState}
    (h : resolveDeficiency s u defId date = Except.ok s') :
    s'.checkouts = s.checkouts
    ∧ (s'.equipment = s.equipment
       ∨ (∃ a, s'.equipment = setStatus a Status.checkedOut s.equipment)
       ∨ (∃ a, s.checkouts.any (isOpenFor a) = false
            ∧ s'.equipment = setStatus a Status.available s.equipment)) := by
  by_cases hmgr : canManageInventory u = true
  case neg =>
    rw [resolveDeficiency_noauth_eq s u defId date (by simpa using hmgr)] at h
    obtain rfl := Except.ok.inj h
    exact ⟨rfl, Or.inl rfl⟩
  case pos =>
  cases hfind : s.deficiencies.find? (fun x => decide (x.id = defId)) with
  | none =>
    rw [resolveDeficiency_notfound_eq s u defId date hmgr hfind] at h
    obtain rfl := Except.ok.inj h
    exact ⟨rfl, Or.inl rfl⟩
  | some d =>
    rw [resolveDeficiency_found_eq s u defId date d hmgr hfind] at h
    obtain rfl := Except.ok.inj h
    refine ⟨rfl, ?_⟩
    have hgoal : update_equipment_on_deficiency_update d (resolveUpd u defId date d)
        (s.deficiencies.map (resolveUpd u defId date)) s.checkouts s.equipment
          = s.equipment
        ∨ (∃ a, update_equipment_on_deficiency_update d (resolveUpd u defId date d)
            (s.deficiencies.map (resolveUpd u defId date)) s.checkouts s.equipment
              = setStatus a Status.checkedOut s.equipment)
        ∨ (∃ a, s.checkouts.any (isOpenFor a) = false
            ∧ update_equipment_on_deficiency_update d (resolveUpd u defId date d)
              (s.deficiencies.map (resolveUpd u defId date)) s.checkouts s.equipment
                = setStatus a Status.available s.equipment) := by
      unfold update_equipment_on_deficiency_update
      by_cases hcond : (resolveUpd u defId date d).status = DefStatus.resolved
          ∧ d.status = DefStatus.pending
      · rw [if_pos hcond]
        cases hoth : ((s.deficiencies.map (resolveUpd u defId date)).any fun d'' =>
            decide (d''.id ≠ (resolveUpd u defId date d).id)
              && isPendingMajorFor (resolveUpd u defId date d).equipment_id d'') with
        | true =>
          rw [if_pos rfl]
          exact Or.inl rfl
        | false =>
          rw [if_neg (by simp)]
          cases hop : s.checkouts.any
              (isOpenFor (resolveUpd u defId date d).equipment_id) with
          | true =>
            rw [if_pos rfl]
            exact Or.inr (Or.inl ⟨(resolveUpd u defId date d).equipment_id, rfl⟩)
          | false =>
            rw [if_neg (by simp)]
            exact Or.inr (Or.inr
              ⟨(resolveUpd u defId date d).equipment_id, hop, rfl⟩)
      · rw [if_neg hcond]
        exact Or.inl rfl
    exact hgoal

/-- Open-checkout invariants preserved by `resolveDeficiency`. -/
theorem openInv_resolve {s : AppState} {u : User} {defId : Nat} {date : Int}
    {s' : AppState}
    (ho : openInv s) (ha : availNoOpen s)
    (h : resolveDeficiency s u defId date = Except.ok s') :
    openInv s' ∧ availNoOpen s' := by
  obtain ⟨hcks, hcase⟩ := resolve_equip_cases h
  have hco : ∀ y, countOpen y s' = countOpen y s := by
    intro y
    unfold countOpen
    rw [hcks]
  constructor
  · intro e' he'
    rcases hcase with hEq | ⟨a, hEq⟩ | ⟨a, hopa, hEq⟩ <;> rw [hEq] at he'
    · rw [hco]
      exact ho e' he'
    · obtain ⟨e₁, h1, hid1, -⟩ := mem_setStatus he'
      rw [hid1, hco]
      exact ho e₁ h1
    · obtain ⟨e₁, h1, hid1, -⟩ := mem_setStatus he'
      rw [hid1, hco]
      exact ho e₁ h1
  · intro e' he' hst'
    rcases hcase with hEq | ⟨a, hEq⟩ | ⟨a, hopa, hEq⟩ <;> rw [hEq] at he'
    · rw [hco]
      exact ha e' he' hst'
    · obtain ⟨e₁, h1, hid1, hcase1⟩ := mem_setStatus he'
      rcases hcase1 with ⟨hx, rfl⟩ | ⟨hx, rfl⟩
      · exact Status.noConfusion hst'
      · rw [hco]
        exact ha e' h1 hst'
    · obtain ⟨e₁, h1, hid1, hcase1⟩ := mem_setStatus he'
      rcases hcase1 with ⟨hx, rfl⟩ | ⟨hx, rfl⟩
      · show countOpen (Equipment.id { e₁ with status := Status.available }) s' = 0
        unfold countOpen
        rw [hcks]
        rw [show (Equipment.id { e₁ with status := Status.available }) = a from hx]
        rw [List.length_eq_zero, List.filter_eq_nil]
        exact List.any_eq_false.mp hopa
      · rw [hco]
        exact ha e' h1 hst'

/-- C2 amended: every lifecycle operation preserves "at most one open
checkout per equipment" (together with the auxiliary fact that `available`
equipment has no open checkout); the store itself, however, does not enforce
this — see the counterexample on the non-unique partial index. -/
theorem C2_unique_open (s : AppState) (ho : openInv s) (ha : availNoOpen s) :
    (∀ u eid form ni now s',
      handleCheckout s u eid form ni now = Except.ok s' →
        openInv s' ∧ availNoOpen s')
    ∧ (∀ u eid form now ndi dd s',
      handleReturn s u eid form now ndi dd = Except.ok s' →
        openInv s' ∧ availNoOpen s')
    ∧ (∀ u eid desc sev nid date s',
      reportDeficiency s u eid desc sev nid date = Except.ok s' →
        openInv s' ∧ availNoOpen s')
    ∧ (∀ u defId date s',
      resolveDeficiency s u defId date = Except.ok s' →
        openInv s' ∧ availNoOpen s') :=
  ⟨fun _ _ _ _ _ _ h => openInv_checkout ho ha h,
   fun _ _ _ _ _ _ _ h => openInv_return ho ha h,
   fun _ _ _ _ _ _ _ h => openInv_report ho ha h,
   fun _ _ _ _ h => openInv_resolve ho ha h⟩

/-- First store-level concurrent checkout row. -/
def ckRow1 : Checkout :=
  { id := 201, equipment_id := 0, user_id := 1, checkout_date := 0,
    expected_return := none, return_date := none, use_type := UseType.club,
    purpose := none, return_condition := none }

/-- Second store-level concurrent checkout row. -/
def ckRow2 : Checkout := { ckRow1 with id := 202, user_id := 2 }

/-- Two store-level inserts from clients that both read `available`. -/
def c2Chain : Except EqError AppState :=
  dbInsertCheckout sInit ckRow1 >>= fun t => dbInsertCheckout t ckRow2

/-- C2 counterexample: `idx_eq_checkouts_active` is an ordinary (non-UNIQUE)
partial index, so the store does not enforce at-most-one-open-checkout: two
inserts that bypass the app's status guard (as two concurrent checkouts
whose reads both saw `available` would) both succeed and leave two open
checkout rows for the same equipment. -/
theorem C2_counterexample :
    idx_eq_checkouts_active.unique = false
    ∧ (c2Chain.toOption.map fun t => countOpen 0 t) = some 2 :=
  ⟨rfl, by decide⟩

/-- C2 witness: the preservation statement evaluated on a concrete checkout. -/
theorem C2_unique_open_witness :
    openInv sInit ∧ availNoOpen sInit
    ∧ handleCheckout sInit uVol 0 cform 100 0 = Except.ok sOut
    ∧ (openInv sOut ∧ availNoOpen sOut) :=
  ⟨by decide, by decide, by decide,
    (C2_unique_open sInit (by decide) (by decide)).1 uVol 0 cform 100 0 sOut
      (by decide)⟩

/-- C5: reporting a major deficiency forces `needs-repair` regardless of
checkout state and leaves every checkout row (in particular any open one)
unmodified; resolving a pending deficiency when no other pending major
deficiency exists for the equipment sets the status to `checked-out` if an
open checkout exists, else `available`. -/
theorem C5_major_deficiency :
    (∀ (s : AppState) (u : User) (eid : Nat) (desc : String) (nid : Nat)
        (date : Int) (s' : AppState),
      reportDeficiency s u eid desc Severity.major nid date = Except.ok s' →
        s'.checkouts = s.checkouts
        ∧ (∀ e' ∈ s'.equipment, e'.id = eid → e'.status = Status.needsRepair))
    ∧ (∀ (s : AppState) (u : User) (defId : Nat) (date : Int) (d : Deficiency)
        (s' : AppState),
      canManageInventory u = true →
      s.deficiencies.find? (fun x => decide (x.id = defId)) = some d →
      d.status = DefStatus.pending →
      (∀ d' ∈ s.deficiencies, d'.id ≠ defId →
        ¬ (d'.equipment_id = d.equipment_id ∧ d'.severity = Severity.major
            ∧ d'.status = DefStatus.pending)) →
      resolveDeficiency s u defId date = Except.ok s' →
        ∀ e' ∈ s'.equipment, e'.id = d.equipment_id →
          e'.status = (if s.checkouts.any (isOpenFor d.equipment_id) then
            Status.checkedOut else Status.available)) := by
  constructor
  · intro s u eid desc nid date s' h
    obtain ⟨hex, hcks, hdefs, heqp⟩ := reportDeficiency_ok h
    refine ⟨hcks, ?_⟩
    intro e' he' hP
    rw [heqp, if_pos rfl] at he'
    obtain ⟨e₁, h1, hid1, hcase⟩ := mem_setStatus he'
    rcases hcase with ⟨hx, rfl⟩ | ⟨hx, rfl⟩
    · rfl
    · exact absurd (hid1 ▸ hP) hx
  · intro s u defId date d s' hmgr hfind hpend hother h
    rw [resolveDeficiency_found_eq s u defId date d hmgr hfind] at h
    obtain rfl := Except.ok.inj h
    have hdid : d.id = defId := by simpa using List.find?_some hfind
    have hRd : resolveUpd u defId date d
        = { d with status := DefStatus.resolved, resolved_by := some u.id,
                   resolved_date := some date,
                   resolution_notes := some "Resolved" } := by
      unfold resolveUpd
      rw [if_pos hdid]
    have hRid : (resolveUpd u defId date d).id = defId := by rw [hRd]; exact hdid
    have hREq : (resolveUpd u defId date d).equipment_id = d.equipment_id := by
      rw [hRd]
    have hcondT : (resolveUpd u defId date d).status = DefStatus.resolved
        ∧ d.status = DefStatus.pending := ⟨by rw [hRd], hpend⟩
    have hothF : ((s.deficiencies.map (resolveUpd u defId date)).any fun d'' =>
        decide (d''.id ≠ (resolveUpd u defId date d).id)
          && isPendingMajorFor (resolveUpd u defId date d).equipment_id d'')
        = false := by
      cases hcase : ((s.deficiencies.map (resolveUpd u defId date)).any fun d'' =>
          decide (d''.id ≠ (resolveUpd u defId date d).id)
            && isPendingMajorFor (resolveUpd u defId date d).equipment_id d'') with
      | false => rfl
      | true =>
        obtain ⟨d₂, hd₂, hne₂, hpm₂⟩ := (other_pending_iff u defId date
          s.deficiencies (resolveUpd u defId date d) hRid).mp hcase
        rw [hREq, isPendingMajorFor, decide_eq_true_eq] at hpm₂
        exact absurd hpm₂ (hother d₂ hd₂ hne₂)
    intro e' he' hP
    have hequip : (AppState.equipment
        { equipment := update_equipment_on_deficiency_update d
            (resolveUpd u defId date d)
            (s.deficiencies.map (resolveUpd u defId date)) s.checkouts s.equipment,
          checkouts := s.checkouts,
          deficiencies := s.deficiencies.map (resolveUpd u defId date) })
        = (if s.checkouts.any (isOpenFor d.equipment_id) then
            setStatus d.equipment_id Status.checkedOut s.equipment
          else setStatus d.equipment_id Status.available s.equipment) := by
      show update_equipment_on_deficiency_update _ _ _ _ _ = _
      unfold update_equipment_on_deficiency_update
      rw [if_pos hcondT, if_neg (by rw [hothF]; exact Bool.false_ne_true), hREq]
    rw [hequip] at he'
    cases hop : s.checkouts.any (isOpenFor d.equipment_id) with
    | true =>
      rw [if_pos hop] at he'
      obtain ⟨e₁, h1, hid1, hcase⟩ := mem_setStatus he'
      rcases hcase with ⟨hx, rfl⟩ | ⟨hx, rfl⟩
      · rw [if_pos rfl]
      · exact absurd (hid1 ▸ hP) hx
    | false =>
      rw [if_neg (by rw [hop]; exact Bool.false_ne_true)] at he'
      obtain ⟨e₁, h1, hid1, hcase⟩ := mem_setStatus he'
      rcases hcase with ⟨hx, rfl⟩ | ⟨hx, rfl⟩
      · rw [if_neg (by simp)]
      · exact absurd (hid1 ▸ hP) hx

/-- Sample state after reporting a major deficiency while checked out. -/
def sRep : AppState :=
  { equipment := [{ eqMower with status := Status.needsRepair }],
    checkouts := [ckOpen],
    deficiencies := [reportRow uVol 0 "bent blade" Severity.major 20 1] }

/-- C5 witness: a concrete major report on checked-out equipment. -/
theorem C5_major_deficiency_witness :
    reportDeficiency sOut uVol 0 "bent blade" Severity.major 20 1
      = Except.ok sRep
    ∧ sRep.checkouts = sOut.checkouts :=
  ⟨by decide,
    (C5_major_deficiency.1 sOut uVol 0 "bent blade" 20 1 sRep (by decide)).1⟩

/-- Sample already-resolved deficiency (resolved by user 3 on day 3). -/
def defDone : Deficiency :=
  { id := 5, equipment_id := 0, checkout_id := none, reported_by := 2,
    reported_date := 0, description := "worn grip", severity := Severity.minor,
    status := DefStatus.resolved, resolved_by := some 3, resolved_date := some 3,
    resolution_notes := some "Resolved" }

/-- Sample state with the resolved deficiency. -/
def sC6 : AppState :=
  { equipment := [eqMower], checkouts := [], deficiencies := [defDone] }

/-- C6 counterexample: `resolveDeficiency` on an already-resolved deficiency
does not fail with InvalidStateError — App.jsx checks no precondition, so the
update succeeds again, overwriting the resolver (3 to 1) and the resolution
date (3 to 9). -/
theorem C6_counterexample :
    resolveDeficiency sC6 uAdmin 5 9
      = Except.ok { sC6 with deficiencies :=
          [{ defDone with resolved_by := some 1, resolved_date := some 9 }] }
    ∧ resolveDeficiency sC6 uAdmin 5 9 ≠ Except.error EqError.invalidState := by
  constructor
  · decide
  · decide

/-- C6 amended: `resolveDeficiency` never fails with InvalidStateError.  On
any deficiency found by id (pending or resolved alike) it sets the status to
`resolved` and records the resolver and resolution date, overwriting any
previous resolution; when the deficiency was already resolved, the equipment
and checkout tables are untouched (the trigger only fires on a
pending-to-resolved transition). -/
theorem C6_resolve_behavior (s : AppState) (u : User) (defId : Nat)
    (date : Int) (d : Deficiency)
    (hmgr : canManageInventory u = true)
    (hfind : s.deficiencies.find? (fun x => decide (x.id = defId)) = some d) :
    resolveDeficiency s u defId date ≠ Except.error EqError.invalidState
    ∧ ∀ s', resolveDeficiency s u defId date = Except.ok s' →
        (s'.deficiencies.find? (fun x => decide (x.id = defId)) = some
            { d with status := DefStatus.resolved, resolved_by := some u.id,
                     resolved_date := some date,
                     resolution_notes := some "Resolved" }
          ∧ s'.checkouts = s.checkouts
          ∧ (d.status = DefStatus.resolved → s'.equipment = s.equipment)) := by
  have hres : resolveDeficiency s u defId date = Except.ok
      { s with
          deficiencies := s.deficiencies.map fun x =>
            if x.id = defId then
              { x with status := DefStatus.resolved, resolved_by := some u.id,
                       resolved_date := some date,
                       resolution_notes := some "Resolved" }
            else x,
          equipment := update_equipment_on_deficiency_update d
            (if d.id = defId then
              { d with status := DefStatus.resolved, resolved_by := some u.id,
                       resolved_date := some date,
                       resolution_notes := some "Resolved" }
             else d)
            (s.deficiencies.map fun x =>
              if x.id = defId then
                { x with status := DefStatus.resolved, resolved_by := some u.id,
                         resolved_date := some date,
                         resolution_notes := some "Resolved" }
              else x)
            s.checkouts s.equipment } := by
    unfold resolveDeficiency
    rw [if_pos hmgr, hfind]
  refine ⟨by rw [hres]; simp, ?_⟩
  intro s' hs'
  rw [hres] at hs'
  obtain rfl := (Except.ok.inj hs').symm
  refine ⟨?_, rfl, ?_⟩
  · show (s.deficiencies.map _).find? _ = _
    rw [find?_id_map Deficiency.id defId
      (fun x => { x with status := DefStatus.resolved, resolved_by := some u.id,
                         resolved_date := some date,
                         resolution_notes := some "Resolved" })
      (fun a ha => ha) s.deficiencies, hfind, Option.map_some']
  · intro hdone
    show update_equipment_on_deficiency_update _ _ _ _ _ = _
    unfold update_equipment_on_deficiency_update
    rw [if_neg]
    rintro ⟨-, h2⟩
    rw [hdone] at h2
    exact DefStatus.noConfusion h2

/-- C6 witness: applying the amended theorem at the sample state. -/
theorem C6_resolve_behavior_witness :
    canManageInventory uAdmin = true
    ∧ sC6.deficiencies.find? (fun x => decide (x.id = 5)) = some defDone
    ∧ resolveDeficiency sC6 uAdmin 5 9 ≠ Except.error EqError.invalidState :=
  ⟨by decide, by decide,
    (C6_resolve_behavior sC6 uAdmin 5 9 defDone (by decide) (by decide)).1⟩

/-! Claim C7: authorization failures. -/

/-- Sample pending deficiency for the C7 counterexample. -/
def defPend : Deficiency :=
  { id := 5, equipment_id := 0, checkout_id := none, reported_by := 2,
    reported_date := 0, description := "worn grip", severity := Severity.minor,
    status := DefStatus.pending, resolved_by := none, resolved_date := none,
    resolution_notes := none }

/-- Sample state with the pending deficiency. -/
def sC7 : AppState :=
  { equipment := [eqMower], checkouts := [], deficiencies := [defPend] }

/-- C7 counterexample: a volunteer invoking deficiency resolution is not
rejected with AuthorizationError: the row-security policy silently filters
the update, the call succeeds with the state unchanged. -/
theorem C7_counterexample :
    resolveDeficiency sC7 uVol 5 9 = Except.ok sC7
    ∧ resolveDeficiency sC7 uVol 5 9 ≠ Except.error EqError.authorization := by
  constructor
  · decide
  · decide

/-- C7 amended: an actor who is neither chair nor admin invoking deficiency
resolution causes no state change, but the operation is not rejected with an
AuthorizationError — the store's row security filters the update to zero
rows and the call returns success.  Checkout and deficiency reporting
require only authentication (`canCheckOut` is true for every role), so no
unauthorized actor exists for them. -/
theorem C7_unauthorized_resolve (s : AppState) (u : User) (defId : Nat)
    (date : Int) (h : canManageInventory u = false) :
    resolveDeficiency s u defId date = Except.ok s
    ∧ ∀ u' : User, canCheckOut u' = true := by
  refine ⟨?_, fun _ => rfl⟩
  unfold resolveDeficiency
  rw [if_neg]
  simp [h]

/-- C7 witness: applying the amended theorem to the volunteer. -/
theorem C7_unauthorized_resolve_witness :
    canManageInventory uVol = false
    ∧ resolveDeficiency sC7 uVol 5 9 = Except.ok sC7 :=
  ⟨by decide, (C7_unauthorized_resolve sC7 uVol 5 9 (by decide)).1⟩

/-! Query and aggregation layer (App.jsx helper functions). -/

/-- Current instant: local day number plus milliseconds past local midnight
(`new Date()`; `startOfDay` of it is the day number). -/
structure Now where
  day : Int
  ms : Nat
deriving DecidableEq, Repr

/-- date-fns `isPast` applied to the local midnight of day `d`: that midnight
is before the current instant iff `d` is an earlier day, or today with any
time elapsed since midnight. -/
def isPastDayStart (d : Int) (now : Now) : Bool :=
  decide (d < now.day ∨ (d = now.day ∧ 0 < now.ms))

/-- Row of the overdue report: the checkout spread with `daysOverdue`. -/
structure OverdueEntry where
  checkout : Checkout
  daysOverdue : Int
deriving DecidableEq, Repr

/-- Stable insertion into a sorted list: the new element goes after every
element that strictly precedes it and before everything else. -/
def insertByStable {α : Type} (beats : α → α → Bool) (x : α) :
    List α → List α
  | [] => [x]
  | y :: ys => if beats y x then y :: insertByStable beats x ys
               else x :: y :: ys

/-- Stable sort by a strict precedence test, modelling the (stable)
JavaScript `Array.prototype.sort`: elements the comparator ties stay in
input order. -/
def sortByStable {α : Type} (beats : α → α → Bool) : List α → List α
  | [] => []
  | x :: xs => insertByStable beats x (sortByStable beats xs)

/-- Comparator of `getOverdueCheckouts`
(`(a, b) => b.daysOverdue - a.daysOverdue`): `y` strictly precedes `x` iff
it is more overdue. -/
def overdueBeats (y x : OverdueEntry) : Bool :=
  decide (x.daysOverdue < y.daysOverdue)

/-- App.jsx `getOverdueCheckouts`: keep checkouts with no return timestamp
and an expected-return date whose midnight `isPast`; attach
`daysOverdue = differenceInDays(today, expected)`; sort by days overdue
descending. -/
def getOverdueCheckouts (checkouts : List Checkout) (now : Now) :
    List OverdueEntry :=
  sortByStable overdueBeats
    ((checkouts.filter fun c =>
        match c.return_date, c.expected_return with
        | none, some d => isPastDayStart d now
        | _, _ => false).map fun c =>
      { checkout := c, daysOverdue := now.day - c.expected_return.getD 0 })

/-- Claim-side membership condition as amended: open checkout whose
expected-return date is before today, or equal to today when the current
instant is past midnight. -/
def overdueCond_amended (c : Checkout) (now : Now) : Bool :=
  match c.return_date, c.expected_return with
  | none, some d => decide (d < now.day ∨ (d = now.day ∧ 0 < now.ms))
  | _, _ => false

/-- Claim-side membership condition as originally stated: open checkout
whose expected-return date is strictly before today's date. -/
def overdueCond_strict (c : Checkout) (now : Now) : Bool :=
  match c.return_date, c.expected_return with
  | none, some d => decide (d < now.day)
  | _, _ => false

/-- Inserting permutes to consing. -/
theorem insertByStable_perm {α : Type} (beats : α → α → Bool) (x : α)
    (l : List α) : (insertByStable beats x l).Perm (x :: l) := by
  induction l with
  | nil => exact List.Perm.refl _
  | cons y ys ih =>
    unfold insertByStable
    by_cases hb : beats y x = true
    · rw [if_pos hb]
      exact (List.Perm.cons y ih).trans (List.Perm.swap x y ys)
    · rw [if_neg hb]

/-- The stable sort permutes its input. -/
theorem sortByStable_perm {α : Type} (beats : α → α → Bool) (l : List α) :
    (sortByStable beats l).Perm l := by
  induction l with
  | nil => exact List.Perm.refl _
  | cons x xs ih =>
    exact (insertByStable_perm beats x _).trans (List.Perm.cons x ih)

/-- Inserting preserves sortedness (no later element strictly precedes an
earlier one), for an asymmetric test whose complement is transitive. -/
theorem pairwise_insertByStable {α : Type} (beats : α → α → Bool)
    (hasym : ∀ a b, beats a b = true → beats b a = false)
    (hnt : ∀ a b c, beats b a = false → beats c b = false → beats c a = false)
    (x : α) (l : List α)
    (hl : List.Pairwise (fun a b => beats b a = false) l) :
    List.Pairwise (fun a b => beats b a = false) (insertByStable beats x l) := by
  induction l with
  | nil => exact List.pairwise_singleton _ _
  | cons y ys ih =>
    rw [List.pairwise_cons] at hl
    obtain ⟨hy, hys⟩ := hl
    unfold insertByStable
    by_cases hb : beats y x = true
    · rw [if_pos hb, List.pairwise_cons]
      refine ⟨?_, ih hys⟩
      intro z hz
      have hz' : z ∈ x :: ys := (insertByStable_perm beats x ys).mem_iff.mp hz
      rcases List.mem_cons.mp hz' with rfl | hzys
      · exact hasym y z hb
      · exact hy z hzys
    · rw [if_neg hb, List.pairwise_cons]
      refine ⟨?_, List.pairwise_cons.mpr ⟨hy, hys⟩⟩
      intro z hz
      rcases List.mem_cons.mp hz with rfl | hzys
      · exact Bool.eq_false_iff.mpr hb
      · exact hnt x y z (Bool.eq_false_iff.mpr hb) (hy z hzys)

/-- The stable sort is sorted. -/
theorem pairwise_sortByStable {α : Type} (beats : α → α → Bool)
    (hasym : ∀ a b, beats a b = true → beats b a = false)
    (hnt : ∀ a b c, beats b a = false → beats c b = false → beats c a = false)
    (l : List α) :
    List.Pairwise (fun a b => beats b a = false) (sortByStable beats l) := by
  induction l with
  | nil => exact List.Pairwise.nil
  | cons x xs ih => exact pairwise_insertByStable beats hasym hnt x _ ih

/-- Inserting an element the filter rejects does not change the filter. -/
theorem filter_insertByStable_neg {α : Type} (beats : α → α → Bool)
    (p : α → Bool) (x : α) (hx : p x = false) (l : List α) :
    (insertByStable beats x l).filter p = l.filter p := by
  induction l with
  | nil => simp [insertByStable, hx]
  | cons y ys ih =>
    unfold insertByStable
    by_cases hb : beats y x = true
    · rw [if_pos hb, List.filter_cons, List.filter_cons]
      cases hy : p y
      · rw [if_neg (by simp), if_neg (by simp)]
        exact ih
      · rw [if_pos rfl, if_pos rfl, ih]
    · rw [if_neg hb, List.filter_cons, hx, if_neg (by simp)]

/-- Inserting an element the filter keeps, which ties with every kept
element, puts it at the head of the filter. -/
theorem filter_insertByStable_pos {α : Type} (beats : α → α → Bool)
    (p : α → Bool) (x : α) (hx : p x = true) (l : List α)
    (hties : ∀ y ∈ l, p y = true → beats y x = false) :
    (insertByStable beats x l).filter p = x :: l.filter p := by
  induction l with
  | nil => simp [insertByStable, hx]
  | cons y ys ih =>
    unfold insertByStable
    by_cases hb : beats y x = true
    · rw [if_pos hb]
      have hyp : p y = false := by
        cases hyv : p y
        · rfl
        · have hf := hties y (List.mem_cons_self y ys) hyv
          rw [hf] at hb
          exact absurd hb (by simp)
      rw [List.filter_cons, hyp, if_neg (by simp)]
      rw [ih (fun z hz hpz => hties z (List.mem_cons_of_mem y hz) hpz)]
      rw [List.filter_cons, hyp, if_neg (by simp)]
    · rw [if_neg hb, List.filter_cons, hx, if_pos rfl]

/-- Stability: within one filter class whose members mutually tie, the sort
preserves input order. -/
theorem filter_sortByStable {α : Type} (beats : α → α → Bool) (p : α → Bool)
    (hties : ∀ a b, p a = true → p b = true → beats b a = false) (l : List α) :
    (sortByStable beats l).filter p = l.filter p := by
  induction l with
  | nil => rfl
  | cons x xs ih =>
    show (insertByStable beats x (sortByStable beats xs)).filter p = _
    cases hx : p x
    · rw [filter_insertByStable_neg beats p x hx, ih, List.filter_cons, hx,
        if_neg (by simp)]
    · rw [filter_insertByStable_pos beats p x hx _
        (fun z hz hpz => hties x z hx hpz), ih, List.filter_cons, hx,
        if_pos rfl]

/-- The overdue comparator is asymmetric. -/
theorem overdueBeats_asym : ∀ a b : OverdueEntry,
    overdueBeats a b = true → overdueBeats b a = false := by
  intro a b h
  rw [overdueBeats, decide_eq_true_eq] at h
  rw [overdueBeats]
  exact decide_eq_false (by omega)

/-- The complement of the overdue comparator is transitive. -/
theorem overdueBeats_negtrans : ∀ a b c : OverdueEntry,
    overdueBeats b a = false → overdueBeats c b = false →
      overdueBeats c a = false := by
  intro a b c h1 h2
  rw [overdueBeats] at h1 h2 ⊢
  rw [decide_eq_false_iff_not] at h1 h2
  exact decide_eq_false (by omega)

/-- The code's filter condition is the amended condition. -/
theorem getOverdue_eq (cs : List Checkout) (now : Now) :
    getOverdueCheckouts cs now = sortByStable overdueBeats
      ((cs.filter fun c => overdueCond_amended c now).map fun c =>
        ({ checkout := c, daysOverdue := now.day - c.expected_return.getD 0 }
          : OverdueEntry)) := rfl

/-- Membership form of the amended condition. -/
theorem overdueCond_amended_iff (c : Checkout) (now : Now) :
    overdueCond_amended c now = true
      ↔ (c.return_date = none ∧ ∃ d, c.expected_return = some d
          ∧ (d < now.day ∨ (d = now.day ∧ 0 < now.ms))) := by
  unfold overdueCond_amended
  cases hr : c.return_date <;> cases he : c.expected_return <;> simp

/-! Claim C8: the overdue report. -/

/-- Sample open checkout whose expected return is today (day 0). -/
def ckDueToday : Checkout :=
  { id := 300, equipment_id := 0, user_id := 2, checkout_date := 0,
    expected_return := some 0, return_date := none, use_type := UseType.club,
    purpose := none, return_condition := none }

/-- C8 counterexample: at any instant past midnight (here 1 ms), a checkout
whose expected-return date is today — not strictly before today's date — is
returned by `getOverdueCheckouts` with days-overdue 0, because the filter
uses `isPast(startOfDay(expected))` against the current instant rather than
comparing dates strictly. -/
theorem C8_counterexample :
    getOverdueCheckouts [ckDueToday] { day := 0, ms := 1 }
      = [{ checkout := ckDueToday, daysOverdue := 0 }]
    ∧ overdueCond_strict ckDueToday { day := 0, ms := 1 } = false := by
  constructor
  · decide
  · decide

/-- C8 amended: `getOverdueCheckouts` returns exactly (as a permutation,
with multiplicity) the open checkouts with an expected-return date on or
before today's date — a due-today date counts whenever the current instant
is past midnight — each carrying days-overdue = today minus the
expected-return day; the result is ordered by days-overdue descending, ties
keep input order (the filter within one days-overdue class is the input
filter), and re-applying the function to the same inputs yields the same
sequence. -/
theorem C8_overdue (cs : List Checkout) (now : Now) :
    (getOverdueCheckouts cs now).Perm
      ((cs.filter fun c => overdueCond_amended c now).map fun c =>
        ({ checkout := c, daysOverdue := now.day - c.expected_return.getD 0 }
          : OverdueEntry))
    ∧ List.Pairwise (fun a b => overdueBeats b a = false)
        (getOverdueCheckouts cs now)
    ∧ (∀ k : Int, (getOverdueCheckouts cs now).filter
          (fun e => decide (e.daysOverdue = k))
        = ((cs.filter fun c => overdueCond_amended c now).map fun c =>
            ({ checkout := c, daysOverdue := now.day - c.expected_return.getD 0 }
              : OverdueEntry)).filter fun e => decide (e.daysOverdue = k))
    ∧ (∀ e ∈ getOverdueCheckouts cs now, ∃ c, c ∈ cs ∧ ∃ d,
        c.return_date = none ∧ c.expected_return = some d
        ∧ (d < now.day ∨ (d = now.day ∧ 0 < now.ms))
        ∧ e.checkout = c ∧ e.daysOverdue = now.day - d)
    ∧ getOverdueCheckouts cs now = getOverdueCheckouts cs now := by
  refine ⟨?_, ?_, ?_, ?_, rfl⟩
  · rw [getOverdue_eq]
    exact sortByStable_perm _ _
  · rw [getOverdue_eq]
    exact pairwise_sortByStable _ overdueBeats_asym overdueBeats_negtrans _
  · intro k
    rw [getOverdue_eq]
    refine filter_sortByStable _ _ ?_ _
    intro a b ha hb
    rw [decide_eq_true_eq] at ha hb
    rw [overdueBeats]
    exact decide_eq_false (by omega)
  · intro e he
    rw [getOverdue_eq] at he
    have he' := (sortByStable_perm overdueBeats _).mem_iff.mp he
    obtain ⟨c, hcF, rfl⟩ := List.mem_map.mp he'
    obtain ⟨hcs, hcond⟩ := List.mem_filter.mp hcF
    obtain ⟨hr, d, he2, hd⟩ := (overdueCond_amended_iff c now).mp hcond
    refine ⟨c, hcs, d, hr, he2, hd, rfl, ?_⟩
    show now.day - c.expected_return.getD 0 = now.day - d
    rw [he2]
    rfl

/-- C8 witness: the amended characterization at concrete inputs. -/
theorem C8_overdue_witness :
    (getOverdueCheckouts [ckDueToday] { day := 0, ms := 1 }).Perm
      (([ckDueToday].filter fun c =>
          overdueCond_amended c { day := 0, ms := 1 }).map fun c =>
        ({ checkout := c,
           daysOverdue := (Now.mk 0 1).day - c.expected_return.getD 0 }
          : OverdueEntry)) :=
  (C8_overdue [ckDueToday] { day := 0, ms := 1 }).1

/-- Maintenance intervals in days by category (App.jsx
`MAINTENANCE_INTERVALS`; `null` means exempt). -/
def MAINTENANCE_INTERVALS : Category → Option Int
  | Category.grounds => some 90
  | Category.tools => some 180
  | Category.cleaning => some 90
  | Category.electrical => some 365
  | Category.events => none
  | Category.shop => some 180
  | Category.range => some 90
  | Category.other => none

/-- Row of the maintenance report: the equipment spread with the computed
fields. -/
structure MaintEntry where
  equipment : Equipment
  daysPastDue : Option Int
  nextDueDate : Option Int
  neverMaintained : Bool
deriving DecidableEq, Repr

/-- JS `x.daysPastDue || 0` as used by the comparator. -/
def maintVal (x : MaintEntry) : Int := x.daysPastDue.getD 0

/-- Comparator of `getMaintenanceDue`: never-maintained entries first, then
days-past-due descending. -/
def maintBeats (y x : MaintEntry) : Bool :=
  (y.neverMaintained && !x.neverMaintained)
  || ((y.neverMaintained == x.neverMaintained)
      && decide (maintVal x < maintVal y))

/-- App.jsx `getMaintenanceDue`: keep equipment whose category has a
configured interval and that is never maintained or whose next due date
(`last_maintenance + interval`) `isPast` or falls within 14 days; attach
`daysPastDue`/`nextDueDate`/`neverMaintained`; sort never-maintained first,
then by days past due descending.  (Inside the map the interval lookup is
total because the filter admitted the row; `getD 0` stands for that.) -/
def getMaintenanceDue (eqs : List Equipment) (now : Now) : List MaintEntry :=
  sortByStable maintBeats
    ((eqs.filter fun e =>
        match MAINTENANCE_INTERVALS e.category with
        | none => false
        | some n =>
          match e.last_maintenance with
          | none => true
          | some lm =>
            isPastDayStart (lm + n) now || decide (lm + n - now.day ≤ 14)).map
      fun e =>
        match e.last_maintenance with
        | none => { equipment := e, daysPastDue := none, nextDueDate := none,
                    neverMaintained := true }
        | some lm =>
          { equipment := e,
            daysPastDue := some (now.day
              - (lm + (MAINTENANCE_INTERVALS e.category).getD 0)),
            nextDueDate := some (lm + (MAINTENANCE_INTERVALS e.category).getD 0),
            neverMaintained := false })

/-- Claim-side membership condition: configured interval, and never
maintained, or next due date in the past or within 14 days in the future. -/
def maintCond_spec (e : Equipment) (now : Now) : Bool :=
  match MAINTENANCE_INTERVALS e.category with
  | none => false
  | some n =>
    match e.last_maintenance with
    | none => true
    | some lm => decide (lm + n < now.day
        ∨ (0 ≤ lm + n - now.day ∧ lm + n - now.day ≤ 14))

/-- Pointwise-equal predicates give equal filters. -/
theorem filter_ext {α : Type} {p q : α → Bool} (l : List α)
    (h : ∀ x ∈ l, p x = q x) : l.filter p = l.filter q := by
  induction l with
  | nil => rfl
  | cons x xs ih =>
    rw [List.filter_cons, List.filter_cons, h x (List.mem_cons_self x xs),
      ih (fun y hy => h y (List.mem_cons_of_mem x hy))]

/-- The code's inclusion test agrees with the claim's. -/
theorem maintCond_code_eq_spec (e : Equipment) (now : Now) :
    (match MAINTENANCE_INTERVALS e.category with
     | none => false
     | some n =>
       match e.last_maintenance with
       | none => true
       | some lm =>
         isPastDayStart (lm + n) now || decide (lm + n - now.day ≤ 14))
    = maintCond_spec e now := by
  unfold maintCond_spec
  cases hi : MAINTENANCE_INTERVALS e.category with
  | none => rfl
  | some n =>
    cases hl : e.last_maintenance with
    | none => rfl
    | some lm =>
      apply bool_eq_of_iff
      rw [Bool.or_eq_true, isPastDayStart]
      simp only [decide_eq_true_eq]
      omega

/-- `getMaintenanceDue` through the claim-side filter. -/
theorem getMaintenanceDue_eq (eqs : List Equipment) (now : Now) :
    getMaintenanceDue eqs now = sortByStable maintBeats
      ((eqs.filter fun e => maintCond_spec e now).map
        fun e =>
          match e.last_maintenance with
          | none => { equipment := e, daysPastDue := none, nextDueDate := none,
                      neverMaintained := true }
          | some lm =>
            { equipment := e,
              daysPastDue := some (now.day
                - (lm + (MAINTENANCE_INTERVALS e.category).getD 0)),
              nextDueDate := some (lm
                + (MAINTENANCE_INTERVALS e.category).getD 0),
              neverMaintained := false }) := by
  unfold getMaintenanceDue
  rw [filter_ext eqs (fun e _ => maintCond_code_eq_spec e now)]

/-- The maintenance comparator is asymmetric. -/
theorem maintBeats_asym : ∀ a b : MaintEntry,
    maintBeats a b = true → maintBeats b a = false := by
  intro a b h
  cases ha : a.neverMaintained <;> cases hb : b.neverMaintained <;>
    simp [maintBeats, ha, hb] at h ⊢ <;> omega

/-- The complement of the maintenance comparator is transitive. -/
theorem maintBeats_negtrans : ∀ a b c : MaintEntry,
    maintBeats b a = false → maintBeats c b = false →
      maintBeats c a = false := by
  intro a b c h1 h2
  cases ha : a.neverMaintained <;> cases hb : b.neverMaintained <;>
    cases hc : c.neverMaintained <;>
    simp [maintBeats, ha, hb, hc] at h1 h2 ⊢ <;> omega

/-! Claim C9: the maintenance-due report. -/

/-- C9: `getMaintenanceDue` returns exactly (as a permutation, with
multiplicity) the items whose category has a configured interval
(Grounds 90, Tools 180, Cleaning 90, Electrical 365, Shop 180, Range 90;
Events and Other exempt) and that are never maintained (always due) or have
`nextDue = last_maintenance + interval` in the past or within 14 days in
the future; the sequence is ordered never-maintained first, then days past
due descending, with ties in input order (stability via the filter of each
comparator class). -/
theorem C9_maintenance (eqs : List Equipment) (now : Now) :
    (MAINTENANCE_INTERVALS Category.grounds = some 90
      ∧ MAINTENANCE_INTERVALS Category.tools = some 180
      ∧ MAINTENANCE_INTERVALS Category.cleaning = some 90
      ∧ MAINTENANCE_INTERVALS Category.electrical = some 365
      ∧ MAINTENANCE_INTERVALS Category.events = none
      ∧ MAINTENANCE_INTERVALS Category.shop = some 180
      ∧ MAINTENANCE_INTERVALS Category.range = some 90
      ∧ MAINTENANCE_INTERVALS Category.other = none)
    ∧ (getMaintenanceDue eqs now).Perm
        ((eqs.filter fun e => maintCond_spec e now).map
          fun e =>
            match e.last_maintenance with
            | none => { equipment := e, daysPastDue := none,
                        nextDueDate := none, neverMaintained := true }
            | some lm =>
              { equipment := e,
                daysPastDue := some (now.day
                  - (lm + (MAINTENANCE_INTERVALS e.category).getD 0)),
                nextDueDate := some (lm
                  + (MAINTENANCE_INTERVALS e.category).getD 0),
                neverMaintained := false })
    ∧ List.Pairwise (fun a b => maintBeats b a = false)
        (getMaintenanceDue eqs now)
    ∧ (∀ k : Bool × Int, (getMaintenanceDue eqs now).filter
          (fun x => decide ((x.neverMaintained, maintVal x) = k))
        = ((eqs.filter fun e => maintCond_spec e now).map
            fun e =>
              match e.last_maintenance with
              | none => { equipment := e, daysPastDue := none,
                          nextDueDate := none, neverMaintained := true }
              | some lm =>
                { equipment := e,
                  daysPastDue := some (now.day
                    - (lm + (MAINTENANCE_INTERVALS e.category).getD 0)),
                  nextDueDate := some (lm
                    + (MAINTENANCE_INTERVALS e.category).getD 0),
                  neverMaintained := false }).filter
            fun x => decide ((x.neverMaintained, maintVal x) = k))
    ∧ (∀ x ∈ getMaintenanceDue eqs now, ∃ e, e ∈ eqs
        ∧ maintCond_spec e now = true
        ∧ ((e.last_maintenance = none
            ∧ x = { equipment := e, daysPastDue := none, nextDueDate := none,
                    neverMaintained := true })
          ∨ (∃ lm n, e.last_maintenance = some lm
              ∧ MAINTENANCE_INTERVALS e.category = some n
              ∧ x = { equipment := e, daysPastDue := some (now.day - (lm + n)),
                      nextDueDate := some (lm + n),
                      neverMaintained := false }))) := by
  refine ⟨⟨rfl, rfl, rfl, rfl, rfl, rfl, rfl, rfl⟩, ?_, ?_, ?_, ?_⟩
  · rw [getMaintenanceDue_eq]
    exact sortByStable_perm _ _
  · rw [getMaintenanceDue_eq]
    exact pairwise_sortByStable _ maintBeats_asym maintBeats_negtrans _
  · intro k
    rw [getMaintenanceDue_eq]
    refine filter_sortByStable _ _ ?_ _
    intro a b ha hb
    rw [decide_eq_true_eq] at ha hb
    have hab := ha.trans hb.symm
    rw [Prod.mk.injEq] at hab
    obtain ⟨h1, h2⟩ := hab
    rw [maintBeats, ← h1, h2]
    simp
  · intro x hx
    rw [getMaintenanceDue_eq] at hx
    have hx' := (sortByStable_perm maintBeats _).mem_iff.mp hx
    obtain ⟨e, heF, rfl⟩ := List.mem_map.mp hx'
    obtain ⟨hes, hcond⟩ := List.mem_filter.mp heF
    refine ⟨e, hes, hcond, ?_⟩
    cases hl : e.last_maintenance with
    | none =>
      left
      exact ⟨rfl, rfl⟩
    | some lm =>
      right
      cases hi : MAINTENANCE_INTERVALS e.category with
      | none =>
        exfalso
        unfold maintCond_spec at hcond
        rw [hi] at hcond
        exact absurd hcond (by simp)
      | some n =>
        exact ⟨lm, n, rfl, rfl, rfl⟩

/-- Sample never-maintained grounds equipment. -/
def eqPushMower : Equipment :=
  { id := 2, equipment_code := "EQ002", name := "Push Mower",
    category := Category.grounds, location := none,
    status := Status.available, last_maintenance := none, notes := none }

/-- Sample events equipment (exempt from maintenance tracking). -/
def eqTables : Equipment :=
  { id := 8, equipment_code := "EQ008", name := "Folding Tables",
    category := Category.events, location := none,
    status := Status.available, last_maintenance := some 0, notes := none }

/-- Sample tools equipment last maintained on day 0. -/
def eqChainsaw : Equipment :=
  { id := 3, equipment_code := "EQ003", name := "Chainsaw",
    category := Category.tools, location := none,
    status := Status.available, last_maintenance := some 0, notes := none }

/-- C9 witness: the characterization at a concrete list (never-maintained
grounds item, exempt events item, and a tools item 20 days past due on day
200). -/
theorem C9_maintenance_witness :
    (getMaintenanceDue [eqChainsaw, eqTables, eqPushMower]
        { day := 200, ms := 0 }).Perm
      (([eqChainsaw, eqTables, eqPushMower].filter fun e =>
          maintCond_spec e { day := 200, ms := 0 }).map
        fun e =>
          match e.last_maintenance with
          | none => { equipment := e, daysPastDue := none, nextDueDate := none,
                      neverMaintained := true }
          | some lm =>
            { equipment := e,
              daysPastDue := some ((Now.mk 200 0).day
                - (lm + (MAINTENANCE_INTERVALS e.category).getD 0)),
              nextDueDate := some (lm
                + (MAINTENANCE_INTERVALS e.category).getD 0),
              neverMaintained := false }) :=
  (C9_maintenance [eqChainsaw, eqTables, eqPushMower] { day := 200, ms := 0 }).2.1

/-! CSV export (App.jsx `exportToCSV`), over character lists. -/

/-- JS `value.includes(',') || value.includes('"') || value.includes('\n')`. -/
def needsQuote (v : List Char) : Bool :=
  decide (',' ∈ v) || decide ('"' ∈ v) || decide ('\n' ∈ v)

/-- JS `value.replace(/"/g, '""')`. -/
def doubleQuotes : List Char → List Char
  | [] => []
  | ch :: v => (if ch = '"' then ['"', '"'] else [ch]) ++ doubleQuotes v

/-- Per-field quoting of `exportToCSV`: wrap in quotes, doubling inner
quotes, exactly when the value contains a comma, a quote or a newline. -/
def escapeField (v : List Char) : List Char :=
  if needsQuote v then '"' :: doubleQuotes v ++ ['"'] else v

/-- JS `Array.prototype.join` with a separator. -/
def joinSep (sep : List Char) : List (List Char) → List Char
  | [] => []
  | [x] => x
  | x :: xs => x ++ sep ++ joinSep sep xs

/-- Column descriptor passed to `exportToCSV` (`{ header, accessor }`). -/
structure Column (ρ : Type) where
  header : List Char
  accessor : ρ → Option (List Char)

/-- JS accessor result after the null/undefined-to-empty-string coercion. -/
def csvValue {ρ : Type} (col : Column ρ) (r : ρ) : List Char :=
  (col.accessor r).getD []

/-- One data row of the CSV: escaped field values joined with commas. -/
def renderRow (fields : List (List Char)) : List Char :=
  joinSep [','] (fields.map escapeField)

/-- Text produced by App.jsx `exportToCSV` (the Blob/download side effects
are not modelled): unescaped headers joined with commas, then one line per
record, lines joined with newlines. -/
def exportToCSV_text {ρ : Type} (data : List ρ) (columns : List (Column ρ)) :
    List Char :=
  joinSep ['\n']
    (joinSep [','] (columns.map Column.header)
      :: data.map fun row => renderRow (columns.map fun col => csvValue col row))

/-- Modelled from the spec: a CSV reader for the quoting rules of section 6
(fields separated by commas, records by newlines, a field starting with a
quote runs to the matching quote with doubled quotes un-escaped).  The
repository has no import code; this claim-side parser is the inverse the
round-trip property is stated against.  Arguments: in-quotes flag, remaining
input, current field, current record, finished records. -/
def parseCSVAux : Bool → List Char → List Char → List (List Char) →
    List (List (List Char)) → List (List (List Char))
  | _, [], f, r, acc => acc ++ [r ++ [f]]
  | true, ch :: rest, f, r, acc =>
    if ch = '"' then
      match rest with
      | ch2 :: rest' =>
        if ch2 = '"' then parseCSVAux true rest' (f ++ ['"']) r acc
        else parseCSVAux false (ch2 :: rest') f r acc
      | [] => acc ++ [r ++ [f]]
    else parseCSVAux true rest (f ++ [ch]) r acc
  | false, ch :: rest, f, r, acc =>
    if ch = '"' ∧ f = [] then parseCSVAux true rest f r acc
    else if ch = ',' then parseCSVAux false rest [] (r ++ [f]) acc
    else if ch = '\n' then parseCSVAux false rest [] [] (acc ++ [r ++ [f]])
    else parseCSVAux false rest (f ++ [ch]) r acc

/-- Parse a CSV text into records of fields. -/
def parseCSV (s : List Char) : List (List (List Char)) :=
  parseCSVAux false s [] [] []

/-- One-step evaluation of the parser on exhausted input. -/
theorem pAux_nil (b : Bool) (f : List Char) (r : List (List Char))
    (acc : List (List (List Char))) :
    parseCSVAux b [] f r acc = acc ++ [r ++ [f]] := by
  cases b <;> rfl

/-- One-step evaluation: a doubled quote inside a quoted field. -/
theorem pAux_true_qq (rest f : List Char) (r : List (List Char))
    (acc : List (List (List Char))) :
    parseCSVAux true ('"' :: '"' :: rest) f r acc
      = parseCSVAux true rest (f ++ ['"']) r acc := rfl

/-- One-step evaluation: a closing quote followed by a non-quote. -/
theorem pAux_true_close (ch2 : Char) (rest f : List Char)
    (r : List (List Char)) (acc : List (List (List Char))) (h : ch2 ≠ '"') :
    parseCSVAux true ('"' :: ch2 :: rest) f r acc
      = parseCSVAux false (ch2 :: rest) f r acc := by
  simp [parseCSVAux, h]

/-- One-step evaluation: a closing quote at the end of the input. -/
theorem pAux_true_close_nil (f : List Char) (r : List (List Char))
    (acc : List (List (List Char))) :
    parseCSVAux true ['"'] f r acc = acc ++ [r ++ [f]] := by
  simp [parseCSVAux]

/-- One-step evaluation: an ordinary character inside a quoted field. -/
theorem pAux_true_plain (ch : Char) (rest f : List Char)
    (r : List (List Char)) (acc : List (List (List Char))) (h : ch ≠ '"') :
    parseCSVAux true (ch :: rest) f r acc
      = parseCSVAux true rest (f ++ [ch]) r acc := by
  cases rest <;> simp [parseCSVAux, h]

/-- One-step evaluation: an opening quote at the start of a field. -/
theorem pAux_false_open (rest : List Char) (r : List (List Char))
    (acc : List (List (List Char))) :
    parseCSVAux false ('"' :: rest) [] r acc = parseCSVAux true rest [] r acc := by
  simp [parseCSVAux]

/-- One-step evaluation: a comma ends the current field. -/
theorem pAux_false_comma (rest f : List Char) (r : List (List Char))
    (acc : List (List (List Char))) :
    parseCSVAux false (',' :: rest) f r acc
      = parseCSVAux false rest [] (r ++ [f]) acc := by
  simp [parseCSVAux]

/-- One-step evaluation: a newline ends the current record. -/
theorem pAux_false_nl (rest f : List Char) (r : List (List Char))
    (acc : List (List (List Char))) :
    parseCSVAux false ('\n' :: rest) f r acc
      = parseCSVAux false rest [] [] (acc ++ [r ++ [f]]) := by
  simp [parseCSVAux]

/-- One-step evaluation: an ordinary character extends the current field. -/
theorem pAux_false_plain (ch : Char) (rest f : List Char)
    (r : List (List Char)) (acc : List (List (List Char)))
    (h1 : ch ≠ '"') (h2 : ch ≠ ',') (h3 : ch ≠ '\n') :
    parseCSVAux false (ch :: rest) f r acc
      = parseCSVAux false rest (f ++ [ch]) r acc := by
  simp only [parseCSVAux]
  rw [if_neg (fun hand => h1 hand.1), if_neg h2, if_neg h3]

/-- `join` on a one-element list. -/
theorem joinSep_one (sep x : List Char) : joinSep sep [x] = x := rfl

/-- `join` on a list of two or more elements. -/
theorem joinSep_cons_cons (sep x y : List Char) (ys : List (List Char)) :
    joinSep sep (x :: y :: ys) = x ++ sep ++ joinSep sep (y :: ys) := rfl

/-- A character of a joined list comes from the separator or an element. -/
theorem mem_joinSep (ch : Char) (sep : List Char) :
    ∀ (L : List (List Char)), ch ∈ joinSep sep L → ch ∈ sep ∨ ∃ x ∈ L, ch ∈ x := by
  intro L
  induction L with
  | nil => intro h; exact absurd h (List.not_mem_nil ch)
  | cons x xs ih =>
    cases xs with
    | nil =>
      intro h
      exact Or.inr ⟨x, List.mem_cons_self x [], h⟩
    | cons y ys =>
      intro h
      rw [joinSep_cons_cons, List.mem_append, List.mem_append] at h
      rcases h with (h | h) | h
      · exact Or.inr ⟨x, List.mem_cons_self x (y :: ys), h⟩
      · exact Or.inl h
      · rcases ih h with h' | ⟨z, hz, hcz⟩
        · exact Or.inl h'
        · exact Or.inr ⟨z, List.mem_cons_of_mem x hz, hcz⟩

/-- Scanning an unquoted run of plain characters accumulates them. -/
theorem parse_scan_plain (f : List Char) :
    ∀ (rest facc : List Char) (r : List (List Char))
      (acc : List (List (List Char))),
    (∀ ch ∈ f, ch ≠ ',' ∧ ch ≠ '"' ∧ ch ≠ '\n') →
    parseCSVAux false (f ++ rest) facc r acc
      = parseCSVAux false rest (facc ++ f) r acc := by
  induction f with
  | nil => intro rest facc r acc _; rw [List.nil_append, List.append_nil]
  | cons ch f' ih =>
    intro rest facc r acc hf
    obtain ⟨hc1, hc2, hc3⟩ := hf ch (List.mem_cons_self ch f')
    rw [List.cons_append, pAux_false_plain ch (f' ++ rest) facc r acc hc2 hc1 hc3,
      ih rest (facc ++ [ch]) r acc (fun z hz => hf z (List.mem_cons_of_mem ch hz)),
      List.append_assoc, List.singleton_append]

/-- Scanning the quote-doubled body of a quoted field up to its closing
quote accumulates the original value, provided what follows the closing
quote is empty or starts with a comma or newline. -/
theorem parse_scan_quoted (f : List Char) :
    ∀ (rest facc : List Char) (r : List (List Char))
      (acc : List (List (List Char))),
    (rest = [] ∨ rest.head? = some ',' ∨ rest.head? = some '\n') →
    parseCSVAux true (doubleQuotes f ++ '"' :: rest) facc r acc
      = parseCSVAux false rest (facc ++ f) r acc := by
  induction f with
  | nil =>
    intro rest facc r acc hrest
    show parseCSVAux true ('"' :: rest) facc r acc = _
    cases rest with
    | nil => rw [pAux_true_close_nil, pAux_nil, List.append_nil]
    | cons c2 rest' =>
      have hc2 : c2 ≠ '"' := by
        rcases hrest with h | h | h
        · exact absurd h (List.cons_ne_nil c2 rest')
        · simp only [List.head?_cons, Option.some.injEq] at h
          subst h; decide
        · simp only [List.head?_cons, Option.some.injEq] at h
          subst h; decide
      rw [pAux_true_close c2 rest' facc r acc hc2, List.append_nil]
  | cons ch f' ih =>
    intro rest facc r acc hrest
    by_cases hc : ch = '"'
    · subst hc
      have hdq : doubleQuotes ('"' :: f') ++ '"' :: rest
          = '"' :: '"' :: (doubleQuotes f' ++ '"' :: rest) := by
        simp [doubleQuotes]
      rw [hdq, pAux_true_qq, ih rest (facc ++ ['"']) r acc hrest,
        List.append_assoc, List.singleton_append]
    · have hdq : doubleQuotes (ch :: f') ++ '"' :: rest
          = ch :: (doubleQuotes f' ++ '"' :: rest) := by
        simp [doubleQuotes, hc]
      rw [hdq, pAux_true_plain ch (doubleQuotes f' ++ '"' :: rest) facc r acc hc,
        ih rest (facc ++ [ch]) r acc hrest, List.append_assoc,
        List.singleton_append]

/-- Parsing one escaped field from the start of a field position recovers
the original value, when followed by end of input, a comma or a newline. -/
theorem parse_field (f rest : List Char) (r : List (List Char))
    (acc : List (List (List Char)))
    (hrest : rest = [] ∨ rest.head? = some ',' ∨ rest.head? = some '\n') :
    parseCSVAux false (escapeField f ++ rest) [] r acc
      = parseCSVAux false rest f r acc := by
  by_cases hq : needsQuote f = true
  · unfold escapeField
    rw [if_pos hq, List.cons_append, List.cons_append, List.append_assoc,
      List.singleton_append, pAux_false_open,
      parse_scan_quoted f rest [] r acc hrest, List.nil_append]
  · unfold escapeField
    rw [if_neg hq]
    have hf : ∀ ch ∈ f, ch ≠ ',' ∧ ch ≠ '"' ∧ ch ≠ '\n' := by
      intro ch hch
      refine ⟨?_, ?_, ?_⟩ <;> intro hh <;> subst hh <;> exact hq (by
        simp [needsQuote, hch])
    rw [parse_scan_plain f rest [] r acc hf, List.nil_append]

/-- Parsing an escaped record at the end of the input appends the record. -/
theorem parse_record_end (fs : List (List Char)) :
    ∀ (f : List Char) (r : List (List Char)) (acc : List (List (List Char))),
    parseCSVAux false (renderRow (f :: fs)) [] r acc = acc ++ [r ++ f :: fs] := by
  induction fs with
  | nil =>
    intro f r acc
    have h1 : renderRow [f] = escapeField f := rfl
    rw [h1, ← List.append_nil (escapeField f),
      parse_field f [] r acc (Or.inl rfl), pAux_nil]
  | cons g gs ih =>
    intro f r acc
    have h1 : renderRow (f :: g :: gs) = escapeField f ++ ',' :: renderRow (g :: gs) := by
      simp [renderRow, joinSep_cons_cons, List.append_assoc]
    rw [h1, parse_field f (',' :: renderRow (g :: gs)) r acc
        (Or.inr (Or.inl rfl)), pAux_false_comma, ih g (r ++ [f]) acc,
      List.append_assoc, List.singleton_append]

/-- Parsing an escaped record followed by a newline appends the record and
continues with the rest of the input. -/
theorem parse_record_nl (fs : List (List Char)) :
    ∀ (f t : List Char) (r : List (List Char)) (acc : List (List (List Char))),
    parseCSVAux false (renderRow (f :: fs) ++ '\n' :: t) [] r acc
      = parseCSVAux false t [] [] (acc ++ [r ++ f :: fs]) := by
  induction fs with
  | nil =>
    intro f t r acc
    have h1 : renderRow [f] = escapeField f := rfl
    rw [h1, parse_field f ('\n' :: t) r acc (Or.inr (Or.inr rfl)),
      pAux_false_nl]
  | cons g gs ih =>
    intro f t r acc
    have h1 : renderRow (f :: g :: gs) ++ '\n' :: t
        = escapeField f ++ ',' :: (renderRow (g :: gs) ++ '\n' :: t) := by
      simp [renderRow, joinSep_cons_cons, List.append_assoc]
    rw [h1, parse_field f (',' :: (renderRow (g :: gs) ++ '\n' :: t)) r acc
        (Or.inr (Or.inl rfl)), pAux_false_comma, ih g t (r ++ [f]) acc,
      List.append_assoc, List.singleton_append]

/-- Parsing the newline-joined escaped renderings of a nonempty list of
nonempty records appends exactly those records. -/
theorem parse_rows (rows : List (List (List Char))) :
    ∀ (acc : List (List (List Char))), (∀ row ∈ rows, row ≠ []) → rows ≠ [] →
    parseCSVAux false (joinSep ['\n'] (rows.map renderRow)) [] [] acc
      = acc ++ rows := by
  induction rows with
  | nil => intro acc _ hne; exact absurd rfl hne
  | cons row rows' ih =>
    intro acc hrows _
    obtain ⟨f, fs, rfl⟩ : ∃ f fs, row = f :: fs := by
      cases row with
      | nil => exact absurd rfl (hrows [] (List.mem_cons_self [] rows'))
      | cons f fs => exact ⟨f, fs, rfl⟩
    cases rows' with
    | nil =>
      rw [List.map_cons, List.map_nil, joinSep_one,
        parse_record_end fs f [] acc, List.nil_append]
    | cons row2 rows'' =>
      rw [List.map_cons, List.map_cons, joinSep_cons_cons, List.append_assoc,
        List.singleton_append, parse_record_nl fs f _ [] acc, List.nil_append,
        ← List.map_cons,
        ih (acc ++ [f :: fs]) (fun z hz => hrows z (List.mem_cons_of_mem _ hz))
          (List.cons_ne_nil row2 rows''),
        List.append_assoc, List.singleton_append]

/-- Parsing a quote-free, newline-free header line followed by a newline
yields some single record and continues with the rest of the input. -/
theorem parse_header_nl (hl : List Char) :
    ∀ (t facc : List Char) (r : List (List Char))
      (acc : List (List (List Char))),
    (∀ ch ∈ hl, ch ≠ '"' ∧ ch ≠ '\n') →
    ∃ record, parseCSVAux false (hl ++ '\n' :: t) facc r acc
      = parseCSVAux false t [] [] (acc ++ [record]) := by
  induction hl with
  | nil =>
    intro t facc r acc _
    exact ⟨r ++ [facc], by rw [List.nil_append, pAux_false_nl]⟩
  | cons ch hl' ih =>
    intro t facc r acc h
    obtain ⟨hq, hn⟩ := h ch (List.mem_cons_self ch hl')
    have h' : ∀ z ∈ hl', z ≠ '"' ∧ z ≠ '\n' :=
      fun z hz => h z (List.mem_cons_of_mem ch hz)
    by_cases hc : ch = ','
    · subst hc
      obtain ⟨rec0, hrec⟩ := ih t [] (r ++ [facc]) acc h'
      exact ⟨rec0, by rw [List.cons_append, pAux_false_comma, hrec]⟩
    · obtain ⟨rec0, hrec⟩ := ih t (facc ++ [ch]) r acc h'
      exact ⟨rec0, by
        rw [List.cons_append, pAux_false_plain ch (hl' ++ '\n' :: t) facc r acc hq hc hn,
          hrec]⟩

/-- Parsing a quote-free, newline-free header line at the end of the input
yields some single record. -/
theorem parse_header_end (hl : List Char) :
    ∀ (facc : List Char) (r : List (List Char))
      (acc : List (List (List Char))),
    (∀ ch ∈ hl, ch ≠ '"' ∧ ch ≠ '\n') →
    ∃ record, parseCSVAux false hl facc r acc = acc ++ [record] := by
  induction hl with
  | nil => intro facc r acc _; exact ⟨r ++ [facc], by rw [pAux_nil]⟩
  | cons ch hl' ih =>
    intro facc r acc h
    obtain ⟨hq, hn⟩ := h ch (List.mem_cons_self ch hl')
    have h' : ∀ z ∈ hl', z ≠ '"' ∧ z ≠ '\n' :=
      fun z hz => h z (List.mem_cons_of_mem ch hz)
    by_cases hc : ch = ','
    · subst hc
      obtain ⟨rec0, hrec⟩ := ih [] (r ++ [facc]) acc h'
      exact ⟨rec0, by rw [pAux_false_comma, hrec]⟩
    · obtain ⟨rec0, hrec⟩ := ih (facc ++ [ch]) r acc h'
      exact ⟨rec0, by
        rw [pAux_false_plain ch hl' facc r acc hq hc hn, hrec]⟩

/-- A concrete single column (header `N`, identity accessor) used to
exercise the round-trip at a concrete input. -/
def csvColName : Column (List Char) := { header := ['N'], accessor := fun r => some r }

/-- Concrete sample data: one value needing quoting, one plain. -/
def csvSampleData : List (List Char) := [['a', ',', 'b'], ['x']]

/-- C10: for every record list and column list (nonempty, with headers free
of quotes and newlines), the text produced by `exportToCSV` is one header
record followed by exactly the data records — parsing it back under the
quoting rules recovers every field value — and a field is quoted (wrapped
in quotes with inner quotes doubled) exactly when it contains a comma, a
quote or a newline. -/
theorem C10_csv_roundtrip {ρ : Type} (data : List ρ) (columns : List (Column ρ))
    (hcols : columns ≠ [])
    (hheaders : ∀ col ∈ columns, ∀ ch ∈ col.header, ch ≠ '"' ∧ ch ≠ '\n') :
    (∃ headerRecord,
      parseCSV (exportToCSV_text data columns)
        = headerRecord :: data.map fun row => columns.map fun col => csvValue col row)
    ∧ ∀ v : List Char,
        (needsQuote v = true ↔ (escapeField v).head? = some '"')
        ∧ (needsQuote v = true → escapeField v = '"' :: doubleQuotes v ++ ['"'])
        ∧ (needsQuote v = false → escapeField v = v) := by
  constructor
  · have hhl : ∀ ch ∈ joinSep [','] (columns.map Column.header),
        ch ≠ '"' ∧ ch ≠ '\n' := by
      intro ch hch
      rcases mem_joinSep ch [','] (columns.map Column.header) hch with h | ⟨x, hx, hcx⟩
      · have h' := List.mem_singleton.mp h
        subst h'
        exact ⟨by decide, by decide⟩
      · rcases List.mem_map.mp hx with ⟨col, hcol, rfl⟩
        exact hheaders col hcol ch hcx
    cases data with
    | nil =>
      obtain ⟨rec0, hrec⟩ :=
        parse_header_end (joinSep [','] (columns.map Column.header)) [] [] [] hhl
      refine ⟨rec0, ?_⟩
      unfold parseCSV exportToCSV_text
      rw [List.map_nil, joinSep_one, hrec, List.map_nil, List.nil_append]
    | cons r0 data' =>
      have hmap : (renderRow (columns.map fun col => csvValue col r0)
            :: List.map (fun row => renderRow (columns.map fun col => csvValue col row)) data')
          = ((r0 :: data').map fun row => columns.map fun col => csvValue col row).map
              renderRow := by
        simp [List.map_map, Function.comp]
      obtain ⟨rec0, hrec⟩ :=
        parse_header_nl (joinSep [','] (columns.map Column.header))
          (joinSep ['\n']
            (((r0 :: data').map fun row => columns.map fun col => csvValue col row).map
              renderRow))
          [] [] [] hhl
      have hrowsne : ∀ row ∈ (r0 :: data').map
          (fun row => columns.map fun col => csvValue col row), row ≠ [] := by
        intro row hrow
        rcases List.mem_map.mp hrow with ⟨r1, _, rfl⟩
        intro hnil
        exact hcols (List.map_eq_nil.mp hnil)
      refine ⟨rec0, ?_⟩
      unfold parseCSV exportToCSV_text
      rw [List.map_cons, joinSep_cons_cons, List.append_assoc,
        List.singleton_append, hmap, hrec,
        parse_rows ((r0 :: data').map fun row => columns.map fun col => csvValue col row)
          ([] ++ [rec0]) hrowsne (by simp), List.nil_append, List.singleton_append]
  · intro v
    refine ⟨⟨fun h => ?_, fun h => ?_⟩, fun h => ?_, fun h => ?_⟩
    · unfold escapeField
      rw [if_pos h]
      rfl
    · by_cases hq : needsQuote v = true
      · exact hq
      · exfalso
        unfold escapeField at h
        rw [if_neg hq] at h
        have hmem : '"' ∈ v := by
          cases v with
          | nil => exact absurd h (by simp)
          | cons a as =>
            rw [List.head?_cons, Option.some.injEq] at h
            subst h
            exact List.mem_cons_self '"' as
        exact hq (by simp [needsQuote, hmem])
    · unfold escapeField
      rw [if_pos h]
    · unfold escapeField
      rw [if_neg (by simp [h])]

/-- C10 witness: the hypotheses hold at a concrete one-column table; the
value containing a comma is quoted with doubled-quote escaping (via the
theorem); and the concrete round trip evaluates as stated. -/
theorem C10_csv_roundtrip_witness :
    ([csvColName] ≠ [] ∧ ∀ col ∈ [csvColName], ∀ ch ∈ col.header, ch ≠ '"' ∧ ch ≠ '\n')
    ∧ escapeField ['a', ',', 'b'] = '"' :: doubleQuotes ['a', ',', 'b'] ++ ['"']
    ∧ parseCSV (exportToCSV_text csvSampleData [csvColName])
        = [[['N']], [['a', ',', 'b']], [['x']]] :=
  ⟨⟨List.cons_ne_nil csvColName [], by decide⟩,
   ((C10_csv_roundtrip csvSampleData [csvColName] (List.cons_ne_nil csvColName [])
      (by decide)).2 ['a', ',', 'b']).2.1 (by decide),
   by decide⟩

end EquipCheckout
